import Mathlib

/-!
Verification of the LBL bootloader core (Rust sources under src/core) against its
natural-language specification.  Each Rust function relevant to a claim is embedded
as an executable Lean definition; machine integers are modelled as Nat with explicit
reductions modulo 2^64 or 2^32 where the Rust code performs wrapping arithmetic,
fallible Rust functions become Except values, and raw memory becomes an explicit
function from addresses to byte values.
-/

set_option maxRecDepth 4096

/-! ## Shared data model (core/src/hal.rs, core/src/fs/interface.rs) -/

/-- Device kinds, from `DeviceType` in core/src/hal.rs. -/
inductive DeviceType where
  | Storage
  | Network
  | Gpu
  | InputKeyboard
  | InputMouse
  | InputTouch
  | InputGamepad
  | SerialPort
  | UsbController
  | PciBridge
  | Other
deriving DecidableEq, Repr

/-- A discovered hardware device, from `Device` in core/src/hal.rs (alloc variant). -/
structure Device where
  id : Nat
  name : String
  device_type : DeviceType
deriving DecidableEq, Repr

/-- Filesystem error type, from `FilesystemError` in core/src/fs/interface.rs. -/
inductive FilesystemError where
  | NotFound
  | PermissionDenied
  | IoError
  | NotADirectory
  | NotAFile
  | AlreadyExists
  | InvalidInput
  | Unsupported
  | CorruptedFs
  | NoSpace
  | DriverNotRegistered (s : String)
  | VolumeNotMounted (s : String)
  | PluginLoadError (s : String)
  | NotImplemented
  | Other (s : String)
deriving DecidableEq, Repr

/-- Entry kinds for directory entries, from `EntryType` in core/src/fs/interface.rs. -/
inductive EntryType where
  | File
  | Directory
  | Symlink
  | Other
deriving DecidableEq, Repr

/-- File metadata, from `FileMetadata` in core/src/fs/interface.rs (alloc variant). -/
structure FileMetadata where
  name : String
  entry_type : EntryType
  size : Nat
  created_time : Option Nat
  modified_time : Option Nat
  accessed_time : Option Nat
deriving DecidableEq, Repr

/-! ## C10: the provided `exists` implementation of the `FileSystemInstance` trait
(core/src/fs/interface.rs lines 151-157).  The trait method `metadata` is abstract,
so the embedding takes it as a function argument. -/

/-- The default body of `FileSystemInstance::exists`: calls `metadata` and maps
`Ok _` to `Ok(true)`, `Err(NotFound)` to `Ok(false)`, any other error to itself. -/
def exists_default (metadata : String → Except FilesystemError FileMetadata)
    (path : String) : Except FilesystemError Bool :=
  match metadata path with
  | Except.ok _ => Except.ok true
  | Except.error FilesystemError.NotFound => Except.ok false
  | Except.error e => Except.error e

/-- Claim C10: for every filesystem instance using the default `exists`
implementation and every path, `exists path` returns `Ok true` exactly when
`metadata path` succeeds, returns `Ok false` exactly when `metadata path` fails
with `NotFound`, and propagates any other metadata error unchanged. -/
theorem C10_exists_default_spec
    (metadata : String → Except FilesystemError FileMetadata) (path : String) :
    (exists_default metadata path = Except.ok true ↔
      ∃ md, metadata path = Except.ok md) ∧
    (exists_default metadata path = Except.ok false ↔
      metadata path = Except.error FilesystemError.NotFound) ∧
    (∀ e : FilesystemError, e ≠ FilesystemError.NotFound →
      metadata path = Except.error e →
      exists_default metadata path = Except.error e) := by
  refine ⟨?_, ?_, ?_⟩
  · constructor
    · intro h
      unfold exists_default at h
      cases hm : metadata path with
      | ok md => exact ⟨md, rfl⟩
      | error e =>
        rw [hm] at h
        cases e <;> simp_all
    · rintro ⟨md, hm⟩
      unfold exists_default
      rw [hm]
  · constructor
    · intro h
      unfold exists_default at h
      cases hm : metadata path with
      | ok md => rw [hm] at h; simp_all
      | error e =>
        rw [hm] at h
        cases e <;> simp_all
    · intro hm
      unfold exists_default
      rw [hm]
  · intro e he hm
    unfold exists_default
    rw [hm]
    cases e <;> simp_all

/-- Witness for C10 at a concrete metadata function and path: the function maps
the path to an `IoError`, and `exists` propagates it unchanged. -/
theorem C10_exists_default_spec_witness :
    (FilesystemError.IoError ≠ FilesystemError.NotFound) ∧
    exists_default (fun _ => Except.error FilesystemError.IoError) "/a" =
      Except.error FilesystemError.IoError :=
  ⟨by decide,
   (C10_exists_default_spec (fun _ => Except.error FilesystemError.IoError) "/a").2.2
     FilesystemError.IoError (by decide) rfl⟩

/-! ## C7: FAT32 detection (core/src/fs/fat32.rs lines 36-49).
`Fat32Driver::detect` is a stub: it never reads the device and returns `false`
unconditionally. -/

/-- `Fat32Driver::detect` from core/src/fs/fat32.rs: the body ignores the device
and returns `false` (the comment in the source reads "Stub: always returns false"). -/
def fat32_detect (_device : Device) : Bool :=
  false

/-- Claim C7 (code divergence): `detect` returns `false` for every device, in
particular for a device carrying a valid FAT32 boot sector; the claimed
signature-based acceptance logic is absent from the code. -/
theorem C7_fat32_detect_always_false (d : Device) :
    fat32_detect d = false := rfl

/-! ## C9: HAL device manager (core/src/hal/device_manager.rs).
`DeviceManager` keeps a `BTreeMap<u64, Device>` plus a secondary index
`BTreeMap<DeviceType, Vec<u64>>`.  The maps are embedded as association lists in
which `assocGet` reads the first matching key and `assocInsert` replaces the
first matching binding or appends a fresh one; this matches map semantics for
lookup and insert. -/

/-- Lookup in an association list: the value of the first matching key. -/
def assocGet {α β : Type} [DecidableEq α] : List (α × β) → α → Option β
  | [], _ => none
  | (k', v') :: rest, k => if k' = k then some v' else assocGet rest k

/-- Insert into an association list: replace the first binding of the key, or
append a new binding if the key is absent. -/
def assocInsert {α β : Type} [DecidableEq α] : List (α × β) → α → β → List (α × β)
  | [], k, v => [(k, v)]
  | (k', v') :: rest, k, v =>
      if k' = k then (k, v) :: rest else (k', v') :: assocInsert rest k v

/-- Append a device id onto the per-type id list, creating the entry when the
type is not yet indexed (`entry(..).or_insert_with(Vec::new).push(id)`). -/
def pushByType : List (DeviceType × List Nat) → DeviceType → Nat → List (DeviceType × List Nat)
  | [], t, id => [(t, [id])]
  | (t', ids) :: rest, t, id =>
      if t' = t then (t', ids ++ [id]) :: rest else (t', ids) :: pushByType rest t id

/-- The device manager state, from `DeviceManager` in core/src/hal/device_manager.rs
(alloc variant): device table keyed by u64 id, secondary index by device type, and
the u64 counter used by `generate_id`. -/
structure DeviceManager where
  devices : List (Nat × Device)
  device_ids_by_type : List (DeviceType × List Nat)
  next_device_id : Nat
deriving DecidableEq, Repr

/-- `DeviceManager::new()`: empty tables, ids start from 1. -/
def DeviceManager.new : DeviceManager :=
  { devices := [], device_ids_by_type := [], next_device_id := 1 }

/-- `DeviceManager::add_device` (alloc variant, lines 69-92): a zero id is
replaced by a freshly generated id (`generate_id`, which post-increments the u64
counter); a pre-assigned id at or above the counter bumps the counter past it;
the device is then inserted into the table and its id appended to the secondary
index for its type. -/
def add_device (mgr : DeviceManager) (device_info : Device) : DeviceManager :=
  let dev : Device :=
    if device_info.id = 0 then { device_info with id := mgr.next_device_id }
    else device_info
  let next : Nat :=
    if device_info.id = 0 then (mgr.next_device_id + 1) % 2 ^ 64
    else if device_info.id ≥ mgr.next_device_id then (device_info.id + 1) % 2 ^ 64
    else mgr.next_device_id
  { devices := assocInsert mgr.devices dev.id dev
    device_ids_by_type := pushByType mgr.device_ids_by_type dev.device_type dev.id
    next_device_id := next }

/-- `DeviceManager::get_devices_by_type` (alloc variant, lines 139-150): walk the
id list indexed under the type and collect every device the table still resolves. -/
def get_devices_by_type (mgr : DeviceManager) (t : DeviceType) : List Device :=
  match assocGet mgr.device_ids_by_type t with
  | none => []
  | some ids => ids.filterMap (fun id => assocGet mgr.devices id)

/-- A sequence of `add_device` calls. -/
def runAdds (mgr : DeviceManager) (adds : List Device) : DeviceManager :=
  adds.foldl add_device mgr

/-- The id that `add_device` will actually store for a device in a given state. -/
def effectiveId (mgr : DeviceManager) (d : Device) : Nat :=
  if d.id = 0 then mgr.next_device_id else d.id

/-- A run of `add_device` calls in which every inserted id is fresh, i.e. not
already a key of the device table at the time of insertion. -/
def freshRunB (mgr : DeviceManager) : List Device → Bool
  | [] => true
  | d :: rest =>
      (assocGet mgr.devices (effectiveId mgr d)).isNone &&
        freshRunB (add_device mgr d) rest

/-- The devices stored in the table. -/
def tableValues (mgr : DeviceManager) : List Device :=
  mgr.devices.map Prod.snd

/-- The id list indexed under a device type (empty when the type is absent). -/
def idsFor (mgr : DeviceManager) (t : DeviceType) : List Nat :=
  (assocGet mgr.device_ids_by_type t).getD []

lemma assocGet_eq_none_iff {α β : Type} [DecidableEq α] (l : List (α × β)) (k : α) :
    assocGet l k = none ↔ k ∉ l.map Prod.fst := by
  induction l with
  | nil => simp [assocGet]
  | cons p rest ih =>
    obtain ⟨k', v'⟩ := p
    by_cases h : k' = k
    · subst h; simp [assocGet]
    · simp [assocGet, h, ih, Ne.symm h]

lemma assocGet_mem {α β : Type} [DecidableEq α] {l : List (α × β)} {k : α} {v : β}
    (h : assocGet l k = some v) : (k, v) ∈ l := by
  induction l with
  | nil => simp [assocGet] at h
  | cons p rest ih =>
    obtain ⟨k', v'⟩ := p
    by_cases hk : k' = k
    · subst hk
      simp [assocGet] at h
      simp [h]
    · simp [assocGet, hk] at h
      exact List.mem_cons_of_mem _ (ih h)

lemma mem_assocGet_of_nodup {α β : Type} [DecidableEq α] {l : List (α × β)} {k : α} {v : β}
    (hnd : (l.map Prod.fst).Nodup) (h : (k, v) ∈ l) : assocGet l k = some v := by
  induction l with
  | nil => simp at h
  | cons p rest ih =>
    obtain ⟨k', v'⟩ := p
    simp only [List.map_cons, List.nodup_cons] at hnd
    rcases List.mem_cons.mp h with h1 | h1
    · cases h1
      simp [assocGet]
    · have hne : k' ≠ k := by
        intro hEq
        subst hEq
        exact hnd.1 (List.mem_map.mpr ⟨(k', v), h1, rfl⟩)
      simp [assocGet, hne]
      exact ih hnd.2 h1

lemma assocGet_insert {α β : Type} [DecidableEq α] (l : List (α × β)) (k₀ k : α) (v : β) :
    assocGet (assocInsert l k₀ v) k = if k = k₀ then some v else assocGet l k := by
  induction l with
  | nil =>
    by_cases h : k = k₀
    · simp [assocInsert, assocGet, h]
    · simp [assocInsert, assocGet, h, Ne.symm h]
  | cons p rest ih =>
    obtain ⟨k', v'⟩ := p
    by_cases h1 : k' = k₀
    · subst h1
      by_cases h2 : k = k'
      · subst h2; simp [assocInsert, assocGet]
      · have h2s : k' ≠ k := Ne.symm h2
        simp [assocInsert, assocGet, h2, h2s]
    · by_cases h2 : k' = k
      · subst h2
        simp [assocInsert, assocGet, h1]
      · simp [assocInsert, assocGet, h1, h2, ih]

lemma assocInsert_of_get_none {α β : Type} [DecidableEq α] {l : List (α × β)} {k : α}
    (v : β) (h : assocGet l k = none) : assocInsert l k v = l ++ [(k, v)] := by
  induction l with
  | nil => simp [assocInsert]
  | cons p rest ih =>
    obtain ⟨k', v'⟩ := p
    by_cases hk : k' = k
    · subst hk; simp [assocGet] at h
    · simp [assocGet, hk] at h
      simp [assocInsert, hk, ih h]

lemma pushByType_get_self (l : List (DeviceType × List Nat)) (t : DeviceType) (id : Nat) :
    assocGet (pushByType l t id) t = some ((assocGet l t).getD [] ++ [id]) := by
  induction l with
  | nil => simp [pushByType, assocGet]
  | cons p rest ih =>
    obtain ⟨t', ids⟩ := p
    by_cases h : t' = t
    · subst h; simp [pushByType, assocGet]
    · simp [pushByType, assocGet, h, ih]

lemma pushByType_get_of_ne (l : List (DeviceType × List Nat)) {t t' : DeviceType}
    (id : Nat) (h : t' ≠ t) : assocGet (pushByType l t id) t' = assocGet l t' := by
  have hts : t ≠ t' := Ne.symm h
  induction l with
  | nil => simp [pushByType, assocGet, hts]
  | cons p rest ih =>
    obtain ⟨t₀, ids⟩ := p
    by_cases h0 : t₀ = t
    · subst h0
      simp [pushByType, assocGet, hts]
    · by_cases h1 : t₀ = t'
      · subst h1; simp [pushByType, assocGet, h0]
      · simp [pushByType, assocGet, h0, h1, ih]

/-- Consistency invariant tying the device table to the secondary index. -/
structure MgrInv (mgr : DeviceManager) : Prop where
  keys_nodup : (mgr.devices.map Prod.fst).Nodup
  val_id : ∀ k d, assocGet mgr.devices k = some d → d.id = k
  idx_nodup : ∀ t, (idsFor mgr t).Nodup
  idx_iff : ∀ t id, id ∈ idsFor mgr t ↔
    ∃ d, assocGet mgr.devices id = some d ∧ d.device_type = t

lemma mgrInv_new : MgrInv DeviceManager.new := by
  refine ⟨by simp [DeviceManager.new], ?_, ?_, ?_⟩
  · intro k d h; simp [DeviceManager.new, assocGet] at h
  · intro t; simp [DeviceManager.new, idsFor, assocGet]
  · intro t id; simp [DeviceManager.new, idsFor, assocGet]

lemma mgrInv_add {mgr : DeviceManager} {d : Device} (hinv : MgrInv mgr)
    (hfresh : assocGet mgr.devices (effectiveId mgr d) = none) :
    MgrInv (add_device mgr d) := by
  set k₀ := effectiveId mgr d with hk₀
  set dev : Device := if d.id = 0 then { d with id := mgr.next_device_id } else d with hdev
  have hdevid : dev.id = k₀ := by
    by_cases h : d.id = 0 <;> simp [hdev, hk₀, effectiveId, h]
  have hdevices : (add_device mgr d).devices = assocInsert mgr.devices k₀ dev := by
    simp only [add_device]
    rw [← hdev, hdevid]
  have hindex : (add_device mgr d).device_ids_by_type =
      pushByType mgr.device_ids_by_type dev.device_type k₀ := by
    simp only [add_device]
    rw [← hdev, hdevid]
  have hget : ∀ k, assocGet (add_device mgr d).devices k =
      if k = k₀ then some dev else assocGet mgr.devices k := by
    intro k; rw [hdevices]; exact assocGet_insert ..
  have hidsFor : ∀ t, idsFor (add_device mgr d) t =
      if t = dev.device_type then idsFor mgr t ++ [k₀] else idsFor mgr t := by
    intro t
    by_cases ht : t = dev.device_type
    · subst ht
      simp [idsFor, hindex, pushByType_get_self]
    · simp [idsFor, hindex, pushByType_get_of_ne _ _ ht, ht]
  refine ⟨?_, ?_, ?_, ?_⟩
  · rw [hdevices, assocInsert_of_get_none _ hfresh]
    rw [List.map_append, List.nodup_append]
    refine ⟨hinv.keys_nodup, by simp, ?_⟩
    intro a ha hb
    simp at hb
    subst hb
    exact ((assocGet_eq_none_iff _ _).mp hfresh) ha
  · intro k dd h
    rw [hget] at h
    by_cases hk : k = k₀
    · simp [hk] at h
      rw [← h, hdevid, hk]
    · simp [hk] at h
      exact hinv.val_id k dd h
  · intro t
    rw [hidsFor]
    by_cases ht : t = dev.device_type
    · rw [if_pos ht]
      rw [List.nodup_append]
      refine ⟨hinv.idx_nodup _, by simp, ?_⟩
      intro a ha hb
      simp at hb
      subst hb
      obtain ⟨dd, hdd, _⟩ := (hinv.idx_iff _ _).mp ha
      rw [hfresh] at hdd
      exact Option.noConfusion hdd
    · simp [ht, hinv.idx_nodup t]
  · intro t id
    rw [hidsFor, hget]
    by_cases ht : t = dev.device_type
    · rw [if_pos ht]
      constructor
      · intro h
        rcases List.mem_append.mp h with h1 | h1
        · obtain ⟨dd, hdd, hdt⟩ := (hinv.idx_iff _ _).mp h1
          have hne : id ≠ k₀ := by
            intro hEq
            rw [hEq, hfresh] at hdd
            exact Option.noConfusion hdd
          exact ⟨dd, by simp [hne, hdd], hdt⟩
        · simp at h1
          subst h1
          exact ⟨dev, by simp, ht.symm⟩
      · rintro ⟨dd, hdd, hdt⟩
        by_cases hk : id = k₀
        · simp [hk]
        · simp [hk] at hdd
          exact List.mem_append.mpr (Or.inl ((hinv.idx_iff _ _).mpr ⟨dd, hdd, hdt⟩))
    · simp only [if_neg ht]
      constructor
      · intro h
        obtain ⟨dd, hdd, hdt⟩ := (hinv.idx_iff _ _).mp h
        have hne : id ≠ k₀ := by
          intro hEq
          rw [hEq, hfresh] at hdd
          exact Option.noConfusion hdd
        exact ⟨dd, by simp [hne, hdd], hdt⟩
      · rintro ⟨dd, hdd, hdt⟩
        by_cases hk : id = k₀
        · simp [hk] at hdd
          rw [← hdd] at hdt
          exact absurd hdt.symm ht
        · simp [hk] at hdd
          exact (hinv.idx_iff _ _).mpr ⟨dd, hdd, hdt⟩

lemma mgrInv_runAdds {mgr : DeviceManager} (hinv : MgrInv mgr) :
    ∀ {adds : List Device}, freshRunB mgr adds = true → MgrInv (runAdds mgr adds) := by
  intro adds
  induction adds generalizing mgr with
  | nil => intro _; exact hinv
  | cons d rest ih =>
    intro h
    simp only [freshRunB, Bool.and_eq_true, Option.isNone_iff_eq_none] at h
    exact ih (mgrInv_add hinv h.1) h.2

lemma table_lookup_of_mem {mgr : DeviceManager} (hinv : MgrInv mgr) {d : Device}
    (hd : d ∈ tableValues mgr) : assocGet mgr.devices d.id = some d := by
  obtain ⟨⟨k, d'⟩, hmem, hk⟩ := List.mem_map.mp hd
  simp at hk
  rw [hk] at hmem
  have hget := mem_assocGet_of_nodup hinv.keys_nodup hmem
  have hid := hinv.val_id k d hget
  rw [hid]
  exact hget

lemma mgrInv_index_consistent {mgr : DeviceManager} (hinv : MgrInv mgr) (t : DeviceType) :
    (get_devices_by_type mgr t).Nodup ∧
    ∀ d : Device, d ∈ get_devices_by_type mgr t ↔
      (d ∈ tableValues mgr ∧ d.device_type = t) := by
  unfold get_devices_by_type
  cases hids : assocGet mgr.device_ids_by_type t with
  | none =>
    refine ⟨List.nodup_nil, ?_⟩
    intro d
    simp only [List.not_mem_nil, false_iff]
    rintro ⟨hd, hdt⟩
    have hlk := table_lookup_of_mem hinv hd
    have hmem : d.id ∈ idsFor mgr t := (hinv.idx_iff t d.id).mpr ⟨d, hlk, hdt⟩
    rw [idsFor, hids] at hmem
    simp at hmem
  | some ids =>
    have hids' : idsFor mgr t = ids := by rw [idsFor, hids]; rfl
    constructor
    · refine List.Nodup.filterMap ?_ (hids' ▸ hinv.idx_nodup t)
      intro a a' b hb hb'
      simp only [Option.mem_def] at hb hb'
      have ha := hinv.val_id a b hb
      have ha' := hinv.val_id a' b hb'
      rw [← ha, ← ha']
    · intro d
      rw [List.mem_filterMap]
      constructor
      · rintro ⟨id, hid, hget⟩
        have hmemIds : id ∈ idsFor mgr t := hids' ▸ hid
        obtain ⟨dd, hdd, hdt⟩ := (hinv.idx_iff t id).mp hmemIds
        rw [hget] at hdd
        cases hdd
        refine ⟨?_, hdt⟩
        exact List.mem_map.mpr ⟨(id, d), assocGet_mem hget, rfl⟩
      · rintro ⟨hd, hdt⟩
        have hlk := table_lookup_of_mem hinv hd
        have hmem : d.id ∈ idsFor mgr t := (hinv.idx_iff t d.id).mpr ⟨d, hlk, hdt⟩
        exact ⟨d.id, hids' ▸ hmem, hlk⟩

/-- Claim C9, amended: after any sequence of `add_device` calls starting from
`new()` in which every inserted id is fresh (the id is `0`, so a new id is
generated, or the pre-assigned id is not yet in the table), the secondary index
is consistent with the device table: for every device kind `t`,
`get_devices_by_type t` returns exactly the stored devices whose `device_type`
equals `t`, each exactly once. -/
theorem C9_index_consistent_for_fresh_runs (adds : List Device) (t : DeviceType)
    (hfresh : freshRunB DeviceManager.new adds = true) :
    (get_devices_by_type (runAdds DeviceManager.new adds) t).Nodup ∧
    ∀ d : Device, d ∈ get_devices_by_type (runAdds DeviceManager.new adds) t ↔
      (d ∈ tableValues (runAdds DeviceManager.new adds) ∧ d.device_type = t) :=
  mgrInv_index_consistent (mgrInv_runAdds mgrInv_new hfresh) t

/-- Witness for C9: a concrete fresh run (one auto-id device, one pre-assigned
id 7) satisfies the freshness hypothesis, so the consistency conclusion holds. -/
theorem C9_index_consistent_for_fresh_runs_witness :
    freshRunB DeviceManager.new
        [⟨0, "sda", DeviceType.Storage⟩, ⟨7, "eth0", DeviceType.Network⟩] = true ∧
    (get_devices_by_type
        (runAdds DeviceManager.new
          [⟨0, "sda", DeviceType.Storage⟩, ⟨7, "eth0", DeviceType.Network⟩])
        DeviceType.Storage).Nodup :=
  ⟨by decide,
   (C9_index_consistent_for_fresh_runs
      [⟨0, "sda", DeviceType.Storage⟩, ⟨7, "eth0", DeviceType.Network⟩]
      DeviceType.Storage (by decide)).1⟩

/-- Counterexample to claim C9 as stated: adding two devices that both carry the
pre-assigned id 1 overwrites the first device in the table but appends the id a
second time to the secondary index, so `get_devices_by_type` returns the second
device twice — not "each exactly once". -/
theorem C9_duplicate_id_breaks_index :
    get_devices_by_type
        (runAdds DeviceManager.new
          [⟨1, "a", DeviceType.Storage⟩, ⟨1, "b", DeviceType.Storage⟩])
        DeviceType.Storage =
      [⟨1, "b", DeviceType.Storage⟩, ⟨1, "b", DeviceType.Storage⟩] ∧
    ¬ (get_devices_by_type
        (runAdds DeviceManager.new
          [⟨1, "a", DeviceType.Storage⟩, ⟨1, "b", DeviceType.Storage⟩])
        DeviceType.Storage).Nodup := by
  constructor
  · rfl
  · decide

/-! ## C3: volume id generation and uniqueness (core/src/fs/manager.rs).
`generate_volume_id` renders `format!("vol-{}-{}-{}", id_num, name.replace("/", "_"),
fs.to_lowercase())` where `id_num` is the u32 counter `next_volume_numeric_id`,
post-incremented (u32 arithmetic, modelled with an explicit reduction mod 2^32).
Decimal rendering of the counter is embedded through the base-10 digit list. -/

/-- Decimal rendering of a natural number, most significant digit first, as the
Rust `{}` formatting of an unsigned integer produces it. -/
def decRepr (n : Nat) : List Char :=
  if n = 0 then ['0'] else ((Nat.digits 10 n).map Nat.digitChar).reverse

lemma digitChar_isDigit {d : Nat} (h : d < 10) : (Nat.digitChar d).isDigit = true := by
  interval_cases d <;> decide

lemma decRepr_isDigit {n : Nat} : ∀ c ∈ decRepr n, c.isDigit = true := by
  intro c hc
  unfold decRepr at hc
  by_cases h : n = 0
  · simp [h] at hc
    simp [hc]
  · rw [if_neg h, List.mem_reverse, List.mem_map] at hc
    obtain ⟨d, hd, hdc⟩ := hc
    rw [← hdc]
    exact digitChar_isDigit (Nat.digits_lt_base (by norm_num) hd)

lemma map_digitChar_inj : ∀ (l₁ l₂ : List Nat), (∀ d ∈ l₁, d < 10) → (∀ d ∈ l₂, d < 10) →
    l₁.map Nat.digitChar = l₂.map Nat.digitChar → l₁ = l₂ := by
  intro l₁
  induction l₁ with
  | nil =>
    intro l₂ _ _ h
    cases l₂ with
    | nil => rfl
    | cons d rest => simp at h
  | cons d₁ rest₁ ih =>
    intro l₂ h₁ h₂ h
    cases l₂ with
    | nil => simp at h
    | cons d₂ rest₂ =>
      simp only [List.map_cons, List.cons.injEq] at h
      have hd₁ : d₁ < 10 := h₁ d₁ (List.mem_cons_self ..)
      have hd₂ : d₂ < 10 := h₂ d₂ (List.mem_cons_self ..)
      have hdd : d₁ = d₂ := by
        have : ∀ a < 10, ∀ b < 10, Nat.digitChar a = Nat.digitChar b → a = b := by decide
        exact this d₁ hd₁ d₂ hd₂ h.1
      rw [hdd, ih rest₂ (fun x hx => h₁ x (List.mem_cons_of_mem _ hx))
        (fun x hx => h₂ x (List.mem_cons_of_mem _ hx)) h.2]

lemma decRepr_inj {a b : Nat} (h : decRepr a = decRepr b) : a = b := by
  have key : ∀ n : Nat, n ≠ 0 → decRepr n ≠ ['0'] := by
    intro n hn hcontra
    unfold decRepr at hcontra
    rw [if_neg hn] at hcontra
    have hmap : (Nat.digits 10 n).map Nat.digitChar = ['0'] := by
      have := congrArg List.reverse hcontra
      simpa using this
    have h0map : ([0] : List Nat).map Nat.digitChar = ['0'] := by decide
    have hdig : Nat.digits 10 n = [0] := by
      refine map_digitChar_inj _ _ ?_ ?_ (hmap.trans h0map.symm)
      · intro d hd; exact Nat.digits_lt_base (by norm_num) hd
      · intro d hd; simp at hd; omega
    have := Nat.ofDigits_digits 10 n
    rw [hdig] at this
    simp [Nat.ofDigits] at this
    exact hn this.symm
  by_cases ha : a = 0
  · by_cases hb : b = 0
    · rw [ha, hb]
    · subst ha
      have : decRepr 0 = ['0'] := by simp [decRepr]
      exact absurd (h.symm.trans this) (key b hb)
  · by_cases hb : b = 0
    · subst hb
      have : decRepr 0 = ['0'] := by simp [decRepr]
      exact absurd (h.trans this) (key a ha)
    · unfold decRepr at h
      rw [if_neg ha, if_neg hb] at h
      have hmap := List.reverse_injective h
      have hdig : Nat.digits 10 a = Nat.digits 10 b := by
        refine map_digitChar_inj _ _ ?_ ?_ hmap
        · intro d hd; exact Nat.digits_lt_base (by norm_num) hd
        · intro d hd; exact Nat.digits_lt_base (by norm_num) hd
      have := congrArg (Nat.ofDigits 10) hdig
      rwa [Nat.ofDigits_digits, Nat.ofDigits_digits] at this

/-- `device_name.replace("/", "_")` — the pattern is a single character, so the
replacement is a character map. -/
def sanitizeDeviceName (s : String) : String :=
  String.mk (s.data.map (fun c => if c = '/' then '_' else c))

/-- `fs_type_name.to_lowercase()`; driver names here are ASCII, where Unicode
lowercasing agrees with the character-wise mapping. -/
def lowerName (s : String) : String :=
  String.mk (s.data.map Char.toLower)

/-- The volume id string built by `generate_volume_id`:
`format!("vol-{}-{}-{}", id_num, sanitized_device_name, lowercased_fs_type)`. -/
def mkVolumeId (n : Nat) (deviceName fsName : String) : String :=
  String.mk ("vol-".data ++ decRepr n ++ '-' :: (sanitizeDeviceName deviceName).data
    ++ '-' :: (lowerName fsName).data)

lemma digitsDashCancel : ∀ (xs ys rest₁ rest₂ : List Char),
    (∀ c ∈ xs, c.isDigit = true) → (∀ c ∈ ys, c.isDigit = true) →
    xs ++ '-' :: rest₁ = ys ++ '-' :: rest₂ → xs = ys := by
  intro xs
  induction xs with
  | nil =>
    intro ys rest₁ rest₂ _ hys h
    cases ys with
    | nil => rfl
    | cons y ys' =>
      simp only [List.nil_append, List.cons_append, List.cons.injEq] at h
      have : y.isDigit = true := hys y (List.mem_cons_self ..)
      rw [← h.1] at this
      simp at this
  | cons x xs' ih =>
    intro ys rest₁ rest₂ hxs hys h
    cases ys with
    | nil =>
      simp only [List.nil_append, List.cons_append, List.cons.injEq] at h
      have : x.isDigit = true := hxs x (List.mem_cons_self ..)
      rw [h.1] at this
      simp at this
    | cons y ys' =>
      simp only [List.cons_append, List.cons.injEq] at h
      rw [h.1, ih ys' rest₁ rest₂ (fun c hc => hxs c (List.mem_cons_of_mem _ hc))
        (fun c hc => hys c (List.mem_cons_of_mem _ hc)) h.2]

/-- Distinct counter values always give distinct volume id strings, whatever the
device and filesystem names are: the decimal digits of the counter sit between
the fixed "vol-" head and the first following dash. -/
lemma mkVolumeId_inj_num {n₁ n₂ : Nat} {d₁ d₂ f₁ f₂ : String}
    (h : mkVolumeId n₁ d₁ f₁ = mkVolumeId n₂ d₂ f₂) : n₁ = n₂ := by
  unfold mkVolumeId at h
  have h2 : "vol-".data ++ decRepr n₁ ++ '-' :: (sanitizeDeviceName d₁).data
      ++ '-' :: (lowerName f₁).data =
      "vol-".data ++ decRepr n₂ ++ '-' :: (sanitizeDeviceName d₂).data
      ++ '-' :: (lowerName f₂).data := congrArg String.data h
  simp only [List.append_assoc, List.cons_append, List.nil_append, List.cons.injEq,
    true_and] at h2
  exact decRepr_inj (digitsDashCancel _ _ _ _
    (fun c hc => decRepr_isDigit c hc) (fun c hc => decRepr_isDigit c hc) h2)

/-- Public volume record, from `Volume` in core/src/fs.rs (alloc variant). -/
structure Volume where
  id : String
  fs_type : String
  label : Option String
  device_path : String
  mount_point : Option String
  capacity_bytes : Nat
  free_space_bytes : Nat
  is_read_only : Bool
deriving DecidableEq, Repr

/-- A registered filesystem driver, abstfrom the `FileSystemDriver` trait object:
`name()`, `detect(device)`, and the success or failure of
`mount(device, volume_id, read_only)` together with the mounted instance is
`is_read_only()` answer.  The mounted instance itself carries no further state
observable by the mount loop. -/
structure FsDriver where
  name : String
  detect : Device → Bool
  mountOk : Device → Bool
  instanceReadOnly : Bool

/-- Filesystem-manager state relevant to mounting, from `FilesystemManager` in
core/src/fs/manager.rs: the mount table and the u32 volume id counter. -/
structure FsmState where
  mounted_volumes : List (String × Volume)
  next_volume_numeric_id : Nat

/-- `FilesystemManager::new`: empty mount table, counter starts at 1. -/
def FsmState.new : FsmState :=
  { mounted_volumes := [], next_volume_numeric_id := 1 }

/-- `generate_volume_id` (manager.rs lines 57-62): uses the current counter and
post-increments it (u32 arithmetic). -/
def generate_volume_id (st : FsmState) (device_name fs_type_name : String) :
    String × FsmState :=
  let id_num := st.next_volume_numeric_id
  (mkVolumeId id_num device_name fs_type_name,
   { st with next_volume_numeric_id := (id_num + 1) % 2 ^ 32 })

/-- The driver loop inside `mount_volume_from_device` (manager.rs lines 77-127):
try drivers in registration order; for the first that detects, generate a volume
id and attempt the mount; on mount failure continue with the remaining drivers
(the counter increment is not rolled back); when no driver succeeds the manager
returns `Unsupported`. -/
def mountWithDrivers (device : Device) :
    List FsDriver → FsmState → Option Volume × FsmState
  | [], st => (none, st)
  | drv :: rest, st =>
    if drv.detect device then
      let gen := generate_volume_id st device.name drv.name
      if drv.mountOk device then
        let vol : Volume :=
          { id := gen.1
            fs_type := drv.name
            label := none
            device_path := device.name
            mount_point := none
            capacity_bytes := 0
            free_space_bytes := 0
            is_read_only := drv.instanceReadOnly }
        (some vol,
         { gen.2 with
             mounted_volumes := assocInsert gen.2.mounted_volumes gen.1 vol })
      else mountWithDrivers device rest gen.2
    else mountWithDrivers device rest st

/-- `mount_volume_from_device` for a fixed registered driver list. -/
def mount_volume_from_device (drivers : List FsDriver) (st : FsmState)
    (device : Device) : Option Volume × FsmState :=
  mountWithDrivers device drivers st

/-- A sequence of `mount_volume_from_device` calls, collecting each result. -/
def runMounts (drivers : List FsDriver) (st : FsmState) :
    List Device → List (Option Volume) × FsmState
  | [] => ([], st)
  | dev :: rest =>
    let r := mount_volume_from_device drivers st dev
    let rr := runMounts drivers r.2 rest
    (r.1 :: rr.1, rr.2)

/-- Number of `generate_volume_id` invocations the driver loop performs. -/
def genCountDrivers (device : Device) : List FsDriver → Nat
  | [] => 0
  | drv :: rest =>
    if drv.detect device then
      if drv.mountOk device then 1 else 1 + genCountDrivers device rest
    else genCountDrivers device rest

/-- Number of `generate_volume_id` invocations across a run of mount calls. -/
def genCountRun (drivers : List FsDriver) : List Device → Nat
  | [] => 0
  | dev :: rest => genCountDrivers dev drivers + genCountRun drivers rest

/-- The ids of the successfully mounted volumes of a run. -/
def successIds (outs : List (Option Volume)) : List String :=
  outs.filterMap (fun o => o.map Volume.id)

lemma mountWithDrivers_spec (device : Device) :
    ∀ (ds : List FsDriver) (st : FsmState) (c₀ off : Nat),
    st.next_volume_numeric_id = (c₀ + off) % 2 ^ 32 →
    ((mountWithDrivers device ds st).2.next_volume_numeric_id =
        (c₀ + (off + genCountDrivers device ds)) % 2 ^ 32) ∧
    (∀ vol, (mountWithDrivers device ds st).1 = some vol →
      ∃ e dn fn, off ≤ e ∧ e < off + genCountDrivers device ds ∧
        vol.id = mkVolumeId ((c₀ + e) % 2 ^ 32) dn fn) := by
  intro ds
  induction ds with
  | nil =>
    intro st c₀ off hst
    refine ⟨?_, ?_⟩
    · simpa [mountWithDrivers, genCountDrivers] using hst
    · intro vol h
      simp [mountWithDrivers] at h
  | cons drv rest ih =>
    intro st c₀ off hst
    have hgen2 : (generate_volume_id st device.name drv.name).2.next_volume_numeric_id
        = (c₀ + (off + 1)) % 2 ^ 32 := by
      simp only [generate_volume_id]
      rw [hst, Nat.mod_add_mod, Nat.add_assoc]
    by_cases hdet : drv.detect device = true
    · by_cases hmok : drv.mountOk device = true
      · have hcnt : genCountDrivers device (drv :: rest) = 1 := by
          simp [genCountDrivers, hdet, hmok]
        constructor
        · simp only [mountWithDrivers]
          rw [if_pos hdet, if_pos hmok, hcnt]
          exact hgen2
        · intro vol h
          simp only [mountWithDrivers] at h
          rw [if_pos hdet, if_pos hmok] at h
          have hid : some (mkVolumeId st.next_volume_numeric_id device.name drv.name)
              = some vol.id := congrArg (Option.map Volume.id) h
          have hid2 := Option.some.inj hid
          refine ⟨off, device.name, drv.name, le_refl off, by rw [hcnt]; omega, ?_⟩
          rw [← hid2, hst]
      · have hcnt : genCountDrivers device (drv :: rest) = 1 + genCountDrivers device rest := by
          simp [genCountDrivers, hdet, hmok]
        obtain ⟨ih1, ih2⟩ := ih (generate_volume_id st device.name drv.name).2 c₀ (off + 1) hgen2
        constructor
        · simp only [mountWithDrivers]
          rw [if_pos hdet, if_neg hmok, ih1, hcnt]
          congr 1
          omega
        · intro vol h
          simp only [mountWithDrivers] at h
          rw [if_pos hdet, if_neg hmok] at h
          obtain ⟨e, dn, fn, he1, he2, he3⟩ := ih2 vol h
          exact ⟨e, dn, fn, by omega, by rw [hcnt]; omega, he3⟩
    · have hcnt : genCountDrivers device (drv :: rest) = genCountDrivers device rest := by
        simp [genCountDrivers, hdet]
      obtain ⟨ih1, ih2⟩ := ih st c₀ off hst
      constructor
      · simp only [mountWithDrivers]
        rw [if_neg hdet, ih1, hcnt]
      · intro vol h
        simp only [mountWithDrivers] at h
        rw [if_neg hdet] at h
        obtain ⟨e, dn, fn, he1, he2, he3⟩ := ih2 vol h
        exact ⟨e, dn, fn, he1, by rw [hcnt]; omega, he3⟩

lemma successIds_cons_none (l : List (Option Volume)) :
    successIds (none :: l) = successIds l := rfl

lemma successIds_cons_some (vol : Volume) (l : List (Option Volume)) :
    successIds (some vol :: l) = vol.id :: successIds l := rfl

lemma runMounts_ids (drivers : List FsDriver) :
    ∀ (devs : List Device) (st : FsmState) (c₀ off : Nat),
    st.next_volume_numeric_id = (c₀ + off) % 2 ^ 32 →
    off + genCountRun drivers devs ≤ 2 ^ 32 →
    ((runMounts drivers st devs).2.next_volume_numeric_id =
        (c₀ + (off + genCountRun drivers devs)) % 2 ^ 32) ∧
    (∀ id ∈ successIds (runMounts drivers st devs).1,
        ∃ e dn fn, off ≤ e ∧ e < off + genCountRun drivers devs ∧
          id = mkVolumeId ((c₀ + e) % 2 ^ 32) dn fn) ∧
    (successIds (runMounts drivers st devs).1).Nodup := by
  intro devs
  induction devs with
  | nil =>
    intro st c₀ off hst hle
    refine ⟨by simpa [runMounts, genCountRun] using hst, ?_, ?_⟩
    · intro id hid
      simp [runMounts, successIds] at hid
    · simp [runMounts, successIds]
  | cons dev rest ih =>
    intro st c₀ off hst hle
    have hleG : genCountRun drivers (dev :: rest) =
        genCountDrivers dev drivers + genCountRun drivers rest := rfl
    obtain ⟨hm1, hm2⟩ := mountWithDrivers_spec dev drivers st c₀ off hst
    obtain ⟨ih1, ih2, ih3⟩ := ih (mount_volume_from_device drivers st dev).2 c₀
      (off + genCountDrivers dev drivers) hm1 (by rw [hleG] at hle; omega)
    have hrun : runMounts drivers st (dev :: rest) =
        ((mount_volume_from_device drivers st dev).1 ::
          (runMounts drivers (mount_volume_from_device drivers st dev).2 rest).1,
         (runMounts drivers (mount_volume_from_device drivers st dev).2 rest).2) := rfl
    refine ⟨?_, ?_, ?_⟩
    · rw [hrun]
      rw [ih1, hleG]
      congr 1
      omega
    · intro id hid
      rw [hrun] at hid
      cases hr1 : (mount_volume_from_device drivers st dev).1 with
      | none =>
        rw [hr1, successIds_cons_none] at hid
        obtain ⟨e, dn, fn, he1, he2, he3⟩ := ih2 id hid
        exact ⟨e, dn, fn, by omega, by rw [hleG]; omega, he3⟩
      | some vol =>
        rw [hr1, successIds_cons_some] at hid
        rcases List.mem_cons.mp hid with hid1 | hid1
        · obtain ⟨e, dn, fn, he1, he2, he3⟩ := hm2 vol hr1
          exact ⟨e, dn, fn, he1, by rw [hleG]; omega, hid1 ▸ he3⟩
        · obtain ⟨e, dn, fn, he1, he2, he3⟩ := ih2 id hid1
          exact ⟨e, dn, fn, by omega, by rw [hleG]; omega, he3⟩
    · rw [hrun]
      cases hr1 : (mount_volume_from_device drivers st dev).1 with
      | none =>
        exact ih3
      | some vol =>
        show (vol.id :: successIds
          (runMounts drivers (mount_volume_from_device drivers st dev).2 rest).1).Nodup
        rw [List.nodup_cons]
        refine ⟨?_, ih3⟩
        intro hmem
        obtain ⟨e₀, dn₀, fn₀, hf1, hf2, hf3⟩ := hm2 vol hr1
        obtain ⟨e, dn, fn, he1, he2, he3⟩ := ih2 vol.id hmem
        have hmk : mkVolumeId ((c₀ + e₀) % 2 ^ 32) dn₀ fn₀ =
            mkVolumeId ((c₀ + e) % 2 ^ 32) dn fn := hf3.symm.trans he3
        have hmod := mkVolumeId_inj_num hmk
        have hcancel : e₀ % 2 ^ 32 = e % 2 ^ 32 := by
          have hmeq : Nat.ModEq (2 ^ 32) (c₀ + e₀) (c₀ + e) := hmod
          exact Nat.ModEq.add_left_cancel' c₀ hmeq
        rw [hleG] at hle
        have he₀lt : e₀ < 2 ^ 32 := by omega
        have helt : e < 2 ^ 32 := by omega
        rw [Nat.mod_eq_of_lt he₀lt, Nat.mod_eq_of_lt helt] at hcancel
        omega

/-- Claim C3: for any sequence of `mount_device` calls within one boot (within
one boot: the u32 volume id counter, which starts at 1 and advances by 1 on
every id generation, is not exhausted — at most 2^32 generations), all volume
ids returned by successful mounts are pairwise distinct, because each id embeds
the counter value current at its generation. -/
theorem C3_volume_ids_pairwise_distinct (drivers : List FsDriver) (devs : List Device)
    (hG : genCountRun drivers devs ≤ 2 ^ 32) :
    (successIds (runMounts drivers FsmState.new devs).1).Nodup ∧
    (∀ id ∈ successIds (runMounts drivers FsmState.new devs).1,
      ∃ e dn fn, id = mkVolumeId ((1 + e) % 2 ^ 32) dn fn) := by
  have h := runMounts_ids drivers devs FsmState.new 1 0
    (by show (1 : Nat) = (1 + 0) % 2 ^ 32; norm_num) (by omega)
  refine ⟨h.2.2, ?_⟩
  intro id hid
  obtain ⟨e, dn, fn, _, _, he3⟩ := h.2.1 id hid
  exact ⟨e, dn, fn, he3⟩

/-- Witness for C3: one FAT32-like driver that detects and mounts everything,
two storage devices; the counter bound holds and the two returned ids differ. -/
theorem C3_volume_ids_pairwise_distinct_witness :
    genCountRun [⟨"FAT32", fun _ => true, fun _ => true, true⟩]
        [⟨1, "sda", DeviceType.Storage⟩, ⟨2, "sdb", DeviceType.Storage⟩] ≤ 2 ^ 32 ∧
    (successIds (runMounts [⟨"FAT32", fun _ => true, fun _ => true, true⟩]
        FsmState.new [⟨1, "sda", DeviceType.Storage⟩, ⟨2, "sdb", DeviceType.Storage⟩]).1).Nodup :=
  ⟨by decide,
   (C3_volume_ids_pairwise_distinct
      [⟨"FAT32", fun _ => true, fun _ => true, true⟩]
      [⟨1, "sda", DeviceType.Storage⟩, ⟨2, "sdb", DeviceType.Storage⟩]
      (by decide)).1⟩

/-! ## Memory model shared by the loader claims (C1, C8).
Raw physical memory is a function from byte addresses to byte values; copying a
byte list and zero-filling a range are explicit pointwise updates. -/

/-- Copy a byte list to consecutive addresses starting at `addr`
(`dest_slice.copy_from_slice(src)`). -/
def writeBytes (m : Nat → Nat) (addr : Nat) : List Nat → (Nat → Nat)
  | [] => m
  | b :: bs => writeBytes (Function.update m addr b) (addr + 1) bs

/-- Zero-fill `n` bytes starting at `addr` (`slice.fill(0)`). -/
def zeroRange (m : Nat → Nat) (addr : Nat) : Nat → (Nat → Nat)
  | 0 => m
  | n + 1 => zeroRange (Function.update m addr 0) (addr + 1) n

lemma writeBytes_out (bs : List Nat) : ∀ (m : Nat → Nat) (a x : Nat),
    (x < a ∨ a + bs.length ≤ x) → writeBytes m a bs x = m x := by
  induction bs with
  | nil => intro m a x _; rfl
  | cons b rest ih =>
    intro m a x hx
    simp only [writeBytes]
    rw [ih (Function.update m a b) (a + 1) x (by simp at hx ⊢; omega)]
    rw [Function.update_apply]
    rw [if_neg (by simp at hx; omega)]

lemma writeBytes_at (bs : List Nat) : ∀ (m : Nat → Nat) (a i : Nat),
    i < bs.length → writeBytes m a bs (a + i) = bs.getD i 0 := by
  induction bs with
  | nil => intro m a i h; simp at h
  | cons b rest ih =>
    intro m a i h
    cases i with
    | zero =>
      simp only [writeBytes, List.getD]
      rw [writeBytes_out rest _ (a + 1) (a + 0) (by omega)]
      simp [Function.update_apply]
    | succ j =>
      simp only [writeBytes, List.getD] at *
      have : a + (j + 1) = (a + 1) + j := by omega
      rw [this, ih (Function.update m a b) (a + 1) j (by simp at h; omega)]
      rfl

lemma zeroRange_out : ∀ (n : Nat) (m : Nat → Nat) (a x : Nat),
    (x < a ∨ a + n ≤ x) → zeroRange m a n x = m x := by
  intro n
  induction n with
  | zero => intro m a x _; rfl
  | succ k ih =>
    intro m a x hx
    simp only [zeroRange]
    rw [ih (Function.update m a 0) (a + 1) x (by omega)]
    rw [Function.update_apply, if_neg (by omega)]

lemma zeroRange_at : ∀ (n : Nat) (m : Nat → Nat) (a i : Nat),
    i < n → zeroRange m a n (a + i) = 0 := by
  intro n
  induction n with
  | zero => intro m a i h; omega
  | succ k ih =>
    intro m a i h
    cases i with
    | zero =>
      simp only [zeroRange]
      rw [zeroRange_out k _ (a + 1) (a + 0) (by omega)]
      simp [Function.update_apply]
    | succ j =>
      simp only [zeroRange]
      have : a + (j + 1) = (a + 1) + j := by omega
      rw [this, ih (Function.update m a 0) (a + 1) j (by omega)]

/-! ## C8: initrd staging (core/src/loader/kernel_formats.rs lines 74-105 and
232-250). -/

/-- Loader error type, from `LoadError` in core/src/loader/kernel_formats.rs. -/
inductive LoadError where
  | InvalidFormat (s : String)
  | UnsupportedFormat (s : String)
  | MemoryAllocationFailed (s : String)
  | SegmentLoadFailed (s : String)
  | IoError (s : String)
  | Internal (s : String)
deriving DecidableEq, Repr

/-- Output of the kernel loader, from `KernelInfo`. -/
structure KernelInfo where
  entry_point : Nat
  load_address : Nat
  size : Nat
  stack_ptr : Option Nat
deriving DecidableEq, Repr

/-- Initrd staging record, from `LoadedImageInfo`. -/
structure LoadedImageInfo where
  load_address : Nat
  size : Nat
deriving DecidableEq, Repr

/-- The bump allocator state: the static `NEXT_ALLOC_ADDR` in
`allocate_contiguous_memory`. -/
structure AllocState where
  next_alloc_addr : Nat
deriving DecidableEq, Repr

/-- Initial allocator state: allocations start at 32 MiB. -/
def AllocState.init : AllocState := ⟨0x02000000⟩

/-- `allocate_contiguous_memory` (lines 232-250): align the cursor up with
`(x + alignment - 1) & !(alignment - 1)` — for the power-of-two alignments used
here that mask equals subtracting `x % alignment`, and the u64 addition wraps —
then fail on u64 overflow of `current_addr + size` (`checked_add`), else bump
the cursor past the reserved block. -/
def allocate_contiguous_memory (st : AllocState) (size alignment : Nat) :
    Option (Nat × AllocState) :=
  let x := (st.next_alloc_addr + alignment - 1) % 2 ^ 64
  let current_addr := x - x % alignment
  if current_addr + size < 2 ^ 64 then some (current_addr, ⟨current_addr + size⟩)
  else none

/-- `load_initrd` (lines 74-105): allocate a 16-byte aligned region sized to the
data, fail with `MemoryAllocationFailed` when allocation fails, else copy the
bytes and return the staging record.  The memory and allocator state are
threaded explicitly. -/
def load_initrd (st : AllocState) (initrd_data : List Nat) (m : Nat → Nat) :
    Except LoadError (LoadedImageInfo × (Nat → Nat) × AllocState) :=
  match allocate_contiguous_memory st initrd_data.length 16 with
  | none =>
    Except.error (LoadError.MemoryAllocationFailed "Initrd memory allocation failed")
  | some (load_address, st2) =>
    Except.ok ({ load_address := load_address, size := initrd_data.length },
      writeBytes m load_address initrd_data, st2)

/-- Claim C8, amended: for every initrd file, staging allocates a region whose
base is 16-byte aligned and whose size equals the file size exactly, copies the
file bytes verbatim, and returns that base and size; on allocation failure it
returns `MemoryAllocationFailed` (the variant the code actually produces; no
`InitrdLoadFailed` value exists in the staging error type). -/
theorem C8_initrd_staging (st : AllocState) (data : List Nat) (m : Nat → Nat) :
    (∀ addr st2, allocate_contiguous_memory st data.length 16 = some (addr, st2) →
      load_initrd st data m = Except.ok
        ({ load_address := addr, size := data.length }, writeBytes m addr data, st2) ∧
      addr % 16 = 0 ∧
      (∀ i, i < data.length → writeBytes m addr data (addr + i) = data.getD i 0)) ∧
    (allocate_contiguous_memory st data.length 16 = none →
      load_initrd st data m =
        Except.error (LoadError.MemoryAllocationFailed "Initrd memory allocation failed")) := by
  constructor
  · intro addr st2 halloc
    refine ⟨?_, ?_, ?_⟩
    · unfold load_initrd
      rw [halloc]
    · have : addr = ((st.next_alloc_addr + 16 - 1) % 2 ^ 64)
          - ((st.next_alloc_addr + 16 - 1) % 2 ^ 64) % 16 := by
        unfold allocate_contiguous_memory at halloc
        by_cases hlt : ((st.next_alloc_addr + 16 - 1) % 2 ^ 64)
            - ((st.next_alloc_addr + 16 - 1) % 2 ^ 64) % 16 + data.length < 2 ^ 64
        · rw [if_pos hlt] at halloc
          have h2 := congrArg Prod.fst (Option.some.inj halloc)
          exact h2.symm
        · rw [if_neg hlt] at halloc
          exact absurd halloc (by simp)
      rw [this]
      omega
    · intro i hi
      exact writeBytes_at data m addr i hi
  · intro halloc
    unfold load_initrd
    rw [halloc]

/-- Witness for C8 at the initial allocator state and a three-byte file: the
allocation succeeds at the 16-aligned base 0x02000000 and the staged bytes
match. -/
theorem C8_initrd_staging_witness :
    allocate_contiguous_memory AllocState.init 3 16 = some (0x02000000, ⟨0x02000003⟩) ∧
    load_initrd AllocState.init [7, 8, 9] (fun _ => 0) = Except.ok
      ({ load_address := 0x02000000, size := 3 },
        writeBytes (fun _ => 0) 0x02000000 [7, 8, 9], ⟨0x02000003⟩) ∧
    (0x02000000 : Nat) % 16 = 0 :=
  ⟨by decide,
   ((C8_initrd_staging AllocState.init [7, 8, 9] (fun _ => 0)).1 0x02000000 ⟨0x02000003⟩
      (by decide)).1,
   ((C8_initrd_staging AllocState.init [7, 8, 9] (fun _ => 0)).1 0x02000000 ⟨0x02000003⟩
      (by decide)).2.1⟩

/-- Counterexample to claim C8 as stated: with the allocation cursor near the
top of the u64 space, allocating for a 16-byte initrd fails, and `load_initrd`
returns `MemoryAllocationFailed("Initrd memory allocation failed")` — there is
no `InitrdLoadFailed` variant in the staging error type `LoadError`, and the
`BootExecuteError::InitrdLoadFailed` variant of the boot executor is never
constructed. -/
theorem C8_alloc_failure_error_name :
    load_initrd ⟨2 ^ 64 - 16⟩ (List.replicate 16 0) (fun _ => 0) =
      Except.error (LoadError.MemoryAllocationFailed "Initrd memory allocation failed") := by
  rfl

/-! ## C1: ELF64 kernel loading (core/src/loader/kernel_formats.rs lines 109-222).
The xmas-elf parse result is embedded as a structure exposing exactly the header
fields and program headers the loader reads, alongside the raw file bytes. -/

/-- One program header as the loader reads it: type tag (1 = `PT_LOAD`), file
offset, virtual address, file size and memory size. -/
structure ProgramHeader where
  ptype : Nat
  offset : Nat
  virtual_addr : Nat
  file_size : Nat
  mem_size : Nat
deriving DecidableEq, Repr

/-- A parsed ELF file as `load_elf64_kernel` consumes it: the class byte
(2 = ELFCLASS64), the header entry point, the program headers and the raw file
bytes the segment copies read from. -/
structure ElfFile where
  classByte : Nat
  entry_point : Nat
  phs : List ProgramHeader
  data : List Nat
deriving DecidableEq, Repr

/-- `elf_data.get(lo .. hi)`: `Some` of the sub-slice when the range is valid. -/
def sliceRange (data : List Nat) (lo hi : Nat) : Option (List Nat) :=
  if lo ≤ hi ∧ hi ≤ data.length then some ((data.drop lo).take (hi - lo)) else none

/-- The body of the LOAD-segment branch for one program header: build the
destination slice of `mem_size` bytes at the segment virtual address, copy
`file_size` bytes from file offset `offset` (`SegmentLoadFailed` when the file
range is out of bounds; a copy wider than the destination is the Rust slice
panic, modelled as an `Internal` error), then zero the tail when
`mem_size > file_size`.  Additions the Rust code performs on u64 wrap mod 2^64. -/
def loadSegment (elf_data : List Nat) (m : Nat → Nat) (ph : ProgramHeader) :
    Except LoadError (Nat → Nat) :=
  if ph.file_size > 0 then
    match sliceRange elf_data ph.offset ((ph.offset + ph.file_size) % 2 ^ 64) with
    | none =>
      Except.error (LoadError.SegmentLoadFailed "Segment data out of bounds in ELF file")
    | some bytes =>
      if ph.file_size ≤ ph.mem_size then
        let m1 := writeBytes m ph.virtual_addr bytes
        if ph.mem_size > ph.file_size then
          Except.ok (zeroRange m1 (ph.virtual_addr + ph.file_size)
            (ph.mem_size - ph.file_size))
        else Except.ok m1
      else Except.error (LoadError.Internal "slice index out of range")
  else
    if ph.mem_size > ph.file_size then
      Except.ok (zeroRange m (ph.virtual_addr + ph.file_size)
        (ph.mem_size - ph.file_size))
    else Except.ok m

/-- The program-header loop of `load_elf64_kernel`: process each LOAD header
with non-zero memory size (updating the running minimum load address and
maximum end address first, as the code does), skip everything else. -/
def loadSegments (elf_data : List Nat) :
    List ProgramHeader → (Nat → Nat) → Nat → Nat →
    Except LoadError (Nat × Nat × (Nat → Nat))
  | [], m, mn, mx => Except.ok (mn, mx, m)
  | ph :: rest, m, mn, mx =>
    if ph.ptype = 1 ∧ ph.mem_size ≠ 0 then
      match loadSegment elf_data m ph with
      | Except.error e => Except.error e
      | Except.ok m2 =>
        loadSegments elf_data rest m2
          (if ph.virtual_addr < mn then ph.virtual_addr else mn)
          (if (ph.virtual_addr + ph.mem_size) % 2 ^ 64 > mx then
            (ph.virtual_addr + ph.mem_size) % 2 ^ 64 else mx)
    else loadSegments elf_data rest m mn mx

/-- `load_elf64_kernel` (lines 109-222): reject a class byte other than 2, run
the segment loop with the minimum tracker at `u64::MAX` and the maximum tracker
at 0, reject when no loadable segment was seen, and return the `KernelInfo`
with the entry point taken verbatim from the header. -/
def load_elf64_kernel (elf : ElfFile) (m : Nat → Nat) :
    Except LoadError (KernelInfo × (Nat → Nat)) :=
  if elf.classByte ≠ 2 then Except.error (LoadError.InvalidFormat "Not a 64-bit ELF file.")
  else
    match loadSegments elf.data elf.phs m (2 ^ 64 - 1) 0 with
    | Except.error e => Except.error e
    | Except.ok (mn, mx, m2) =>
      if mn = 2 ^ 64 - 1 then
        Except.error (LoadError.InvalidFormat "ELF file has no loadable segments.")
      else
        Except.ok ({ entry_point := elf.entry_point, load_address := mn,
                     size := mx - mn, stack_ptr := none }, m2)

/-- The program headers the loop actually processes: LOAD type, non-zero
memory size. -/
def loadablePhs (phs : List ProgramHeader) : List ProgramHeader :=
  phs.filter (fun ph => ph.ptype = 1 ∧ ph.mem_size ≠ 0)

/-- Well-formedness of one processed segment: its file range lies inside the
image, its memory range fits in the u64 address space, and its file size does
not exceed its memory size. -/
def segWfB (dataLen : Nat) (ph : ProgramHeader) : Bool :=
  decide (ph.offset + ph.file_size ≤ dataLen) &&
  decide (ph.virtual_addr + ph.mem_size < 2 ^ 64) &&
  decide (ph.file_size ≤ ph.mem_size)

/-- Two segments occupy disjoint memory regions. -/
def regionsDisjB (p q : ProgramHeader) : Bool :=
  decide (p.virtual_addr + p.mem_size ≤ q.virtual_addr) ||
  decide (q.virtual_addr + q.mem_size ≤ p.virtual_addr)

/-- All processed segments pairwise disjoint. -/
def pairwiseDisjB : List ProgramHeader → Bool
  | [] => true
  | p :: rest => rest.all (regionsDisjB p) && pairwiseDisjB rest

lemma segWfB_iff {n : Nat} {ph : ProgramHeader} : segWfB n ph = true ↔
    (ph.offset + ph.file_size ≤ n ∧ ph.virtual_addr + ph.mem_size < 2 ^ 64 ∧
      ph.file_size ≤ ph.mem_size) := by
  simp [segWfB, and_assoc]

lemma slice_getD {data : List Nat} {o f i : Nat} (hi : i < f) (_hb : o + f ≤ data.length) :
    ((data.drop o).take f).getD i 0 = data.getD (o + i) 0 := by
  rw [List.getD_eq_getElem?_getD, List.getD_eq_getElem?_getD]
  rw [List.getElem?_take_of_lt hi, List.getElem?_drop]

lemma loadSegment_spec (elf_data : List Nat) (m : Nat → Nat) (ph : ProgramHeader)
    (hwf : segWfB elf_data.length ph = true) (hlen : elf_data.length < 2 ^ 64) :
    ∃ m1, loadSegment elf_data m ph = Except.ok m1 ∧
      (∀ x, x < ph.virtual_addr ∨ ph.virtual_addr + ph.mem_size ≤ x → m1 x = m x) ∧
      (∀ i, i < ph.file_size → m1 (ph.virtual_addr + i) = elf_data.getD (ph.offset + i) 0) ∧
      (∀ i, ph.file_size ≤ i → i < ph.mem_size → m1 (ph.virtual_addr + i) = 0) := by
  obtain ⟨hoff, hvm, hfm⟩ := segWfB_iff.mp hwf
  have hmod : (ph.offset + ph.file_size) % 2 ^ 64 = ph.offset + ph.file_size :=
    Nat.mod_eq_of_lt (by omega)
  by_cases hf0 : ph.file_size > 0
  · have hslice : sliceRange elf_data ph.offset ((ph.offset + ph.file_size) % 2 ^ 64) =
        some ((elf_data.drop ph.offset).take ph.file_size) := by
      rw [hmod]
      unfold sliceRange
      rw [if_pos ⟨by omega, hoff⟩]
      congr 1
      congr 1
      omega
    have hbyteslen : ((elf_data.drop ph.offset).take ph.file_size).length = ph.file_size := by
      simp
      omega
    by_cases hmf : ph.mem_size > ph.file_size
    · refine ⟨zeroRange (writeBytes m ph.virtual_addr ((elf_data.drop ph.offset).take ph.file_size))
        (ph.virtual_addr + ph.file_size) (ph.mem_size - ph.file_size), ?_, ?_, ?_, ?_⟩
      · unfold loadSegment
        rw [if_pos hf0]
        cases hs : sliceRange elf_data ph.offset ((ph.offset + ph.file_size) % 2 ^ 64) with
        | none =>
          rw [hslice] at hs
          exact Option.noConfusion hs
        | some bytes =>
          rw [hslice] at hs
          have hb := Option.some.inj hs
          subst hb
          simp only [if_pos hfm, if_pos hmf]
      · intro x hx
        rw [zeroRange_out _ _ _ _ (by omega)]
        rw [writeBytes_out _ _ _ _ (by rw [hbyteslen]; omega)]
      · intro i hi
        rw [zeroRange_out _ _ _ _ (by omega)]
        rw [writeBytes_at _ _ _ _ (by rw [hbyteslen]; omega)]
        exact slice_getD hi hoff
      · intro i hi1 hi2
        have : ph.virtual_addr + i = (ph.virtual_addr + ph.file_size) + (i - ph.file_size) := by
          omega
        rw [this, zeroRange_at _ _ _ _ (by omega)]
    · refine ⟨writeBytes m ph.virtual_addr ((elf_data.drop ph.offset).take ph.file_size),
        ?_, ?_, ?_, ?_⟩
      · unfold loadSegment
        rw [if_pos hf0]
        cases hs : sliceRange elf_data ph.offset ((ph.offset + ph.file_size) % 2 ^ 64) with
        | none =>
          rw [hslice] at hs
          exact Option.noConfusion hs
        | some bytes =>
          rw [hslice] at hs
          have hb := Option.some.inj hs
          subst hb
          simp only [if_pos hfm, if_neg hmf]
      · intro x hx
        rw [writeBytes_out _ _ _ _ (by rw [hbyteslen]; omega)]
      · intro i hi
        rw [writeBytes_at _ _ _ _ (by rw [hbyteslen]; omega)]
        exact slice_getD hi hoff
      · intro i hi1 hi2
        omega
  · by_cases hm0 : ph.mem_size > ph.file_size
    · refine ⟨zeroRange m (ph.virtual_addr + ph.file_size) (ph.mem_size - ph.file_size),
        ?_, ?_, ?_, ?_⟩
      · unfold loadSegment
        rw [if_neg hf0, if_pos hm0]
      · intro x hx
        rw [zeroRange_out _ _ _ _ (by omega)]
      · intro i hi
        omega
      · intro i hi1 hi2
        have : ph.virtual_addr + i = (ph.virtual_addr + ph.file_size) + (i - ph.file_size) := by
          omega
        rw [this, zeroRange_at _ _ _ _ (by omega)]
    · refine ⟨m, ?_, ?_, ?_, ?_⟩
      · unfold loadSegment
        rw [if_neg hf0, if_neg hm0]
      · intro x hx
        rfl
      · intro i hi
        omega
      · intro i hi1 hi2
        omega

/-- The running-minimum fold the loop performs on load addresses. -/
def foldMin (l : List ProgramHeader) (mn : Nat) : Nat :=
  l.foldl (fun acc ph => if ph.virtual_addr < acc then ph.virtual_addr else acc) mn

/-- The running-maximum fold the loop performs on segment end addresses. -/
def foldMax (l : List ProgramHeader) (mx : Nat) : Nat :=
  l.foldl (fun acc ph =>
    if ph.virtual_addr + ph.mem_size > acc then ph.virtual_addr + ph.mem_size else acc) mx

lemma foldMin_le (l : List ProgramHeader) : ∀ mn, foldMin l mn ≤ mn := by
  induction l with
  | nil => intro mn; exact le_refl mn
  | cons p rest ih =>
    intro mn
    have h1 := ih (if p.virtual_addr < mn then p.virtual_addr else mn)
    have h2 : (if p.virtual_addr < mn then p.virtual_addr else mn) ≤ mn := by
      split <;> omega
    exact le_trans h1 h2

lemma foldMin_le_mem (l : List ProgramHeader) :
    ∀ mn ph, ph ∈ l → foldMin l mn ≤ ph.virtual_addr := by
  induction l with
  | nil => intro mn ph h; simp at h
  | cons p rest ih =>
    intro mn ph h
    rcases List.mem_cons.mp h with h1 | h1
    · subst h1
      have h1 := foldMin_le rest (if ph.virtual_addr < mn then ph.virtual_addr else mn)
      have h2 : (if ph.virtual_addr < mn then ph.virtual_addr else mn) ≤ ph.virtual_addr := by
        split <;> omega
      exact le_trans h1 h2
    · exact ih _ ph h1

lemma foldMin_cases (l : List ProgramHeader) :
    ∀ mn, foldMin l mn = mn ∨ ∃ ph ∈ l, foldMin l mn = ph.virtual_addr := by
  induction l with
  | nil => intro mn; exact Or.inl rfl
  | cons p rest ih =>
    intro mn
    rcases ih (if p.virtual_addr < mn then p.virtual_addr else mn) with h | ⟨ph, hmem, hph⟩
    · by_cases hc : p.virtual_addr < mn
      · right
        refine ⟨p, List.mem_cons_self .., ?_⟩
        show foldMin rest (if p.virtual_addr < mn then p.virtual_addr else mn) = _
        rw [h, if_pos hc]
      · left
        show foldMin rest (if p.virtual_addr < mn then p.virtual_addr else mn) = mn
        rw [h, if_neg hc]
    · exact Or.inr ⟨ph, List.mem_cons_of_mem _ hmem, hph⟩

lemma foldMax_ge (l : List ProgramHeader) : ∀ mx, mx ≤ foldMax l mx := by
  induction l with
  | nil => intro mx; exact le_refl mx
  | cons p rest ih =>
    intro mx
    have h1 := ih (if p.virtual_addr + p.mem_size > mx then p.virtual_addr + p.mem_size else mx)
    have h2 : mx ≤ (if p.virtual_addr + p.mem_size > mx then p.virtual_addr + p.mem_size else mx) := by
      split <;> omega
    exact le_trans h2 h1

lemma foldMax_ge_mem (l : List ProgramHeader) :
    ∀ mx ph, ph ∈ l → ph.virtual_addr + ph.mem_size ≤ foldMax l mx := by
  induction l with
  | nil => intro mx ph h; simp at h
  | cons p rest ih =>
    intro mx ph h
    rcases List.mem_cons.mp h with h1 | h1
    · subst h1
      have h1 := foldMax_ge rest
        (if ph.virtual_addr + ph.mem_size > mx then ph.virtual_addr + ph.mem_size else mx)
      have h2 : ph.virtual_addr + ph.mem_size ≤
          (if ph.virtual_addr + ph.mem_size > mx then ph.virtual_addr + ph.mem_size else mx) := by
        split <;> omega
      exact le_trans h2 h1
    · exact ih _ ph h1

lemma foldMax_cases (l : List ProgramHeader) :
    ∀ mx, foldMax l mx = mx ∨ ∃ ph ∈ l, foldMax l mx = ph.virtual_addr + ph.mem_size := by
  induction l with
  | nil => intro mx; exact Or.inl rfl
  | cons p rest ih =>
    intro mx
    rcases ih (if p.virtual_addr + p.mem_size > mx then p.virtual_addr + p.mem_size else mx)
      with h | ⟨ph, hmem, hph⟩
    · by_cases hc : p.virtual_addr + p.mem_size > mx
      · right
        refine ⟨p, List.mem_cons_self .., ?_⟩
        show foldMax rest
          (if p.virtual_addr + p.mem_size > mx then p.virtual_addr + p.mem_size else mx) = _
        rw [h, if_pos hc]
      · left
        show foldMax rest
          (if p.virtual_addr + p.mem_size > mx then p.virtual_addr + p.mem_size else mx) = mx
        rw [h, if_neg hc]
    · exact Or.inr ⟨ph, List.mem_cons_of_mem _ hmem, hph⟩

lemma regionsDisjB_iff {p q : ProgramHeader} : regionsDisjB p q = true ↔
    (p.virtual_addr + p.mem_size ≤ q.virtual_addr ∨
     q.virtual_addr + q.mem_size ≤ p.virtual_addr) := by
  simp [regionsDisjB]

lemma loadSegments_spec (elf_data : List Nat) :
    ∀ (phs : List ProgramHeader) (m : Nat → Nat) (mn mx : Nat),
    (∀ ph ∈ loadablePhs phs, segWfB elf_data.length ph = true) →
    elf_data.length < 2 ^ 64 →
    pairwiseDisjB (loadablePhs phs) = true →
    ∃ mn2 mx2 m2, loadSegments elf_data phs m mn mx = Except.ok (mn2, mx2, m2) ∧
      mn2 = foldMin (loadablePhs phs) mn ∧
      mx2 = foldMax (loadablePhs phs) mx ∧
      (∀ x, (∀ ph ∈ loadablePhs phs, x < ph.virtual_addr ∨ ph.virtual_addr + ph.mem_size ≤ x) →
        m2 x = m x) ∧
      (∀ ph ∈ loadablePhs phs,
        (∀ i, i < ph.file_size → m2 (ph.virtual_addr + i) = elf_data.getD (ph.offset + i) 0) ∧
        (∀ i, ph.file_size ≤ i → i < ph.mem_size → m2 (ph.virtual_addr + i) = 0)) := by
  intro phs
  induction phs with
  | nil =>
    intro m mn mx _ _ _
    exact ⟨mn, mx, m, rfl, rfl, rfl, fun x _ => rfl, by simp [loadablePhs]⟩
  | cons ph rest ihr =>
    intro m mn mx hwf hlen hdisj
    by_cases hproc : ph.ptype = 1 ∧ ph.mem_size ≠ 0
    · have hfileq : loadablePhs (ph :: rest) = ph :: loadablePhs rest := by
        simp [loadablePhs, List.filter_cons, hproc]
      rw [hfileq] at hwf hdisj
      have hwfph := hwf ph (List.mem_cons_self ..)
      obtain ⟨hoff, hvm, hfm⟩ := segWfB_iff.mp hwfph
      have hdisjrest : pairwiseDisjB (loadablePhs rest) = true := by
        simp only [pairwiseDisjB, Bool.and_eq_true] at hdisj
        exact hdisj.2
      have hall : ∀ q ∈ loadablePhs rest,
          ph.virtual_addr + ph.mem_size ≤ q.virtual_addr ∨
          q.virtual_addr + q.mem_size ≤ ph.virtual_addr := by
        intro q hq
        simp only [pairwiseDisjB, Bool.and_eq_true, List.all_eq_true] at hdisj
        exact regionsDisjB_iff.mp (hdisj.1 q hq)
      obtain ⟨m1, heq1, hout1, hcopy1, hzero1⟩ := loadSegment_spec elf_data m ph hwfph hlen
      obtain ⟨mn2, mx2, m2, heq2, hmin2, hmax2, hout2, hcontent2⟩ :=
        ihr m1 (if ph.virtual_addr < mn then ph.virtual_addr else mn)
          (if (ph.virtual_addr + ph.mem_size) % 2 ^ 64 > mx then
            (ph.virtual_addr + ph.mem_size) % 2 ^ 64 else mx)
          (fun q hq => hwf q (List.mem_cons_of_mem _ hq)) hlen hdisjrest
      have hmodvm : (ph.virtual_addr + ph.mem_size) % 2 ^ 64 = ph.virtual_addr + ph.mem_size :=
        Nat.mod_eq_of_lt hvm
      refine ⟨mn2, mx2, m2, ?_, ?_, ?_, ?_, ?_⟩
      · show loadSegments elf_data (ph :: rest) m mn mx = _
        unfold loadSegments
        rw [if_pos hproc]
        cases hls : loadSegment elf_data m ph with
        | error e =>
          rw [heq1] at hls
          exact Except.noConfusion hls
        | ok mY =>
          rw [heq1] at hls
          have hY := Except.ok.inj hls
          subst hY
          exact heq2
      · rw [hfileq]
        exact hmin2
      · rw [hfileq]
        show mx2 = foldMax (loadablePhs rest)
          (if ph.virtual_addr + ph.mem_size > mx then ph.virtual_addr + ph.mem_size else mx)
        rw [hmax2, hmodvm]
      · rw [hfileq]
        intro x hx
        rw [hout2 x (fun q hq => hx q (List.mem_cons_of_mem _ hq))]
        exact hout1 x (hx ph (List.mem_cons_self ..))
      · rw [hfileq]
        intro q hq
        rcases List.mem_cons.mp hq with hq1 | hq1
        · subst hq1
          have houtreg : ∀ i, i < q.mem_size → m2 (q.virtual_addr + i) = m1 (q.virtual_addr + i) := by
            intro i hi
            refine hout2 (q.virtual_addr + i) ?_
            intro r hr
            rcases hall r hr with hcase | hcase
            · left; omega
            · right; omega
          constructor
          · intro i hi
            rw [houtreg i (by omega)]
            exact hcopy1 i hi
          · intro i hi1 hi2
            rw [houtreg i hi2]
            exact hzero1 i hi1 hi2
        · exact hcontent2 q hq1
    · have hfileq : loadablePhs (ph :: rest) = loadablePhs rest := by
        simp [loadablePhs, List.filter_cons, hproc]
      rw [hfileq] at hwf hdisj
      obtain ⟨mn2, mx2, m2, heq2, hmin2, hmax2, hout2, hcontent2⟩ :=
        ihr m mn mx hwf hlen hdisj
      refine ⟨mn2, mx2, m2, ?_, ?_, ?_, ?_, ?_⟩
      · show loadSegments elf_data (ph :: rest) m mn mx = _
        unfold loadSegments
        rw [if_neg hproc]
        exact heq2
      · rw [hfileq]; exact hmin2
      · rw [hfileq]; exact hmax2
      · rw [hfileq]; exact hout2
      · rw [hfileq]; exact hcontent2

lemma mem_loadable {phs : List ProgramHeader} {ph : ProgramHeader}
    (h : ph ∈ loadablePhs phs) : ph.ptype = 1 ∧ ph.mem_size ≠ 0 := by
  simp only [loadablePhs, List.mem_filter, decide_eq_true_eq] at h
  exact h.2

/-- Claim C1: for a well-formed ELF64 image (class byte 2, at least one LOAD
header with non-zero memory size, every processed segment within the file and
the u64 address space with `file_size ≤ mem_size`, and pairwise disjoint
segment regions), the loader succeeds; every processed LOAD segment has its
`file_size` bytes copied from file offset `offset` to its load address and the
remaining `mem_size - file_size` bytes zeroed; the returned `KernelInfo` has
`load_address` equal to the minimum processed LOAD vaddr, `load_address + size`
equal to the maximum of `vaddr + mem_size` (so `size = max end - min vaddr`),
and `entry_point` taken verbatim from the ELF header. -/
theorem C1_elf64_load_contract (elf : ElfFile) (m : Nat → Nat)
    (hclass : elf.classByte = 2)
    (hne : loadablePhs elf.phs ≠ [])
    (hwf : ∀ ph ∈ loadablePhs elf.phs, segWfB elf.data.length ph = true)
    (hlen : elf.data.length < 2 ^ 64)
    (hdisj : pairwiseDisjB (loadablePhs elf.phs) = true) :
    ∃ info m2, load_elf64_kernel elf m = Except.ok (info, m2) ∧
      info.entry_point = elf.entry_point ∧
      (info.load_address ∈ (loadablePhs elf.phs).map ProgramHeader.virtual_addr ∧
        ∀ v ∈ (loadablePhs elf.phs).map ProgramHeader.virtual_addr, info.load_address ≤ v) ∧
      ((info.load_address + info.size) ∈
          (loadablePhs elf.phs).map (fun ph => ph.virtual_addr + ph.mem_size) ∧
        ∀ e ∈ (loadablePhs elf.phs).map (fun ph => ph.virtual_addr + ph.mem_size),
          e ≤ info.load_address + info.size) ∧
      (∀ ph ∈ loadablePhs elf.phs,
        (∀ i, i < ph.file_size → m2 (ph.virtual_addr + i) = elf.data.getD (ph.offset + i) 0) ∧
        (∀ i, ph.file_size ≤ i → i < ph.mem_size → m2 (ph.virtual_addr + i) = 0)) := by
  obtain ⟨mn2, mx2, m2, heq, hmin, hmax, hout, hcontent⟩ :=
    loadSegments_spec elf.data elf.phs m (2 ^ 64 - 1) 0 hwf hlen hdisj
  obtain ⟨ph0, hph0⟩ := List.exists_mem_of_ne_nil _ hne
  have hph0p := mem_loadable hph0
  obtain ⟨_, hph0vm, _⟩ := segWfB_iff.mp (hwf ph0 hph0)
  have hmnle : mn2 ≤ ph0.virtual_addr := by
    rw [hmin]
    exact foldMin_le_mem _ _ _ hph0
  have hmxge : ph0.virtual_addr + ph0.mem_size ≤ mx2 := by
    rw [hmax]
    exact foldMax_ge_mem _ _ _ hph0
  have hmem0 : ph0.mem_size ≠ 0 := hph0p.2
  have hmn_ne : mn2 ≠ 2 ^ 64 - 1 := by omega
  have hsum : mn2 + (mx2 - mn2) = mx2 := by omega
  refine ⟨{ entry_point := elf.entry_point, load_address := mn2, size := mx2 - mn2,
            stack_ptr := none }, m2, ?_, rfl, ⟨?_, ?_⟩, ⟨?_, ?_⟩, hcontent⟩
  · unfold load_elf64_kernel
    rw [if_neg (by simp [hclass])]
    cases hls : loadSegments elf.data elf.phs m (2 ^ 64 - 1) 0 with
    | error e =>
      rw [heq] at hls
      exact Except.noConfusion hls
    | ok triple =>
      rw [heq] at hls
      have h3 := Except.ok.inj hls
      subst h3
      exact if_neg hmn_ne
  · show mn2 ∈ (loadablePhs elf.phs).map ProgramHeader.virtual_addr
    rcases foldMin_cases (loadablePhs elf.phs) (2 ^ 64 - 1) with hc | ⟨ph, hmemc, hph⟩
    · rw [hmin] at hmn_ne
      exact absurd hc hmn_ne
    · rw [hmin, hph]
      exact List.mem_map.mpr ⟨ph, hmemc, rfl⟩
  · intro v hv
    obtain ⟨ph, hmemc, hph⟩ := List.mem_map.mp hv
    show mn2 ≤ v
    rw [← hph, hmin]
    exact foldMin_le_mem _ _ _ hmemc
  · show mn2 + (mx2 - mn2) ∈ (loadablePhs elf.phs).map (fun ph => ph.virtual_addr + ph.mem_size)
    rw [hsum]
    rcases foldMax_cases (loadablePhs elf.phs) 0 with hc | ⟨ph, hmemc, hph⟩
    · rw [hmax] at hmxge
      rw [hc] at hmxge
      omega
    · rw [hmax, hph]
      exact List.mem_map.mpr ⟨ph, hmemc, rfl⟩
  · intro e he
    obtain ⟨ph, hmemc, hph⟩ := List.mem_map.mp he
    show e ≤ mn2 + (mx2 - mn2)
    rw [hsum, ← hph, hmax]
    exact foldMax_ge_mem _ _ _ hmemc

/-- The synthetic two-segment ELF64 image used as the C1 witness: one segment
with file bytes and a zero tail, one with no file bytes at all. -/
def elfEx : ElfFile :=
  { classByte := 2
    entry_point := 0x1234
    phs := [⟨1, 0, 0x10, 2, 4⟩, ⟨1, 0, 0x40, 0, 2⟩]
    data := [7, 8] }

/-- Witness for C1 at the synthetic image: every hypothesis is discharged by
computation and the contract follows by applying the theorem. -/
theorem C1_elf64_load_contract_witness :
    ∃ info m2, load_elf64_kernel elfEx (fun _ => 0) = Except.ok (info, m2) ∧
      info.entry_point = elfEx.entry_point ∧
      (info.load_address ∈ (loadablePhs elfEx.phs).map ProgramHeader.virtual_addr ∧
        ∀ v ∈ (loadablePhs elfEx.phs).map ProgramHeader.virtual_addr, info.load_address ≤ v) ∧
      ((info.load_address + info.size) ∈
          (loadablePhs elfEx.phs).map (fun ph => ph.virtual_addr + ph.mem_size) ∧
        ∀ e ∈ (loadablePhs elfEx.phs).map (fun ph => ph.virtual_addr + ph.mem_size),
          e ≤ info.load_address + info.size) ∧
      (∀ ph ∈ loadablePhs elfEx.phs,
        (∀ i, i < ph.file_size →
          m2 (ph.virtual_addr + i) = elfEx.data.getD (ph.offset + i) 0) ∧
        (∀ i, ph.file_size ≤ i → i < ph.mem_size → m2 (ph.virtual_addr + i) = 0)) :=
  C1_elf64_load_contract elfEx (fun _ => 0) rfl (by decide) (by decide) (by decide) (by decide)

/-! ## JSON configuration model (core/src/config.rs, core/src/config/parser.rs,
core/src/config/schema_types.rs).
`serde_json::from_str` is embedded as a small JSON reader (sufficient for the
configuration documents: objects, arrays, strings without escape handling
beyond the common ones, integer numbers, booleans, null; no `\u` escapes or
floats, and no source positions in error messages) followed by deserializers
that mirror the `#[derive(Deserialize)]` field attributes of the schema types. -/

/-- A JSON value. -/
inductive Json where
  | null
  | bool (b : Bool)
  | num (n : Int)
  | str (s : String)
  | arr (xs : List Json)
  | obj (fields : List (String × Json))

/-- JSON whitespace skip. -/
def skipWs : List Char → List Char
  | c :: rest => if c = ' ' ∨ c = '\t' ∨ c = '\n' ∨ c = '\r' then skipWs rest else c :: rest
  | [] => []

/-- Read a JSON string body after the opening quote; handles the simple escape
forms. -/
def readStr : List Char → Option (String × List Char)
  | [] => none
  | c :: rest =>
    if c = '\"' then some ("", rest)
    else if c = '\\' then
      match rest with
      | [] => none
      | e :: rest2 =>
        let dec : Option Char :=
          if e = '\"' then some '\"'
          else if e = '\\' then some '\\'
          else if e = '/' then some '/'
          else if e = 'n' then some '\n'
          else if e = 't' then some '\t'
          else if e = 'r' then some '\r'
          else none
        match dec with
        | none => none
        | some d =>
          match readStr rest2 with
          | some (s, rem) => some (String.mk (d :: s.data), rem)
          | none => none
    else
      match readStr rest with
      | some (s, rem) => some (String.mk (c :: s.data), rem)
      | none => none

/-- Read a run of decimal digits. -/
def readDigits : List Char → Nat → Option (Nat × List Char)
  | [], acc => some (acc, [])
  | c :: rest, acc =>
    if c.isDigit then readDigits rest (acc * 10 + (c.toNat - '0'.toNat))
    else some (acc, c :: rest)

/-- Whether the next character continues a number (we only need integers). -/
def startsDigit : List Char → Bool
  | c :: _ => c.isDigit
  | [] => false

mutual

/-- Parse one JSON value (fuel-driven recursion; every recursive call spends
one unit of fuel, and the entry point supplies more fuel than the input
length). -/
def parseVal : Nat → List Char → Option (Json × List Char)
  | 0, _ => none
  | fuel + 1, cs =>
    match skipWs cs with
    | [] => none
    | c :: rest =>
      if c = 'n' then
        match rest with
        | 'u' :: 'l' :: 'l' :: rem => some (Json.null, rem)
        | _ => none
      else if c = 't' then
        match rest with
        | 'r' :: 'u' :: 'e' :: rem => some (Json.bool true, rem)
        | _ => none
      else if c = 'f' then
        match rest with
        | 'a' :: 'l' :: 's' :: 'e' :: rem => some (Json.bool false, rem)
        | _ => none
      else if c = '\"' then
        match readStr rest with
        | some (s, rem) => some (Json.str s, rem)
        | none => none
      else if c = '-' then
        if startsDigit rest then
          match readDigits rest 0 with
          | some (n, rem) => some (Json.num (-(n : Int)), rem)
          | none => none
        else none
      else if c.isDigit then
        match readDigits (c :: rest) 0 with
        | some (n, rem) => some (Json.num (n : Int), rem)
        | none => none
      else if c = '[' then
        match skipWs rest with
        | ']' :: rem => some (Json.arr [], rem)
        | cs2 => match parseElems fuel cs2 with
          | some (xs, rem) => some (Json.arr xs, rem)
          | none => none
      else if c = '\x7b' then
        match skipWs rest with
        | '\x7d' :: rem => some (Json.obj [], rem)
        | cs2 => match parseMembers fuel cs2 with
          | some (fields, rem) => some (Json.obj fields, rem)
          | none => none
      else none

/-- Parse array elements up to the closing bracket. -/
def parseElems : Nat → List Char → Option (List Json × List Char)
  | 0, _ => none
  | fuel + 1, cs =>
    match parseVal fuel cs with
    | none => none
    | some (x, rem) =>
      match skipWs rem with
      | ',' :: rem2 =>
        match parseElems fuel rem2 with
        | some (xs, rem3) => some (x :: xs, rem3)
        | none => none
      | ']' :: rem2 => some ([x], rem2)
      | _ => none

/-- Parse object members up to the closing brace. -/
def parseMembers : Nat → List Char → Option (List (String × Json) × List Char)
  | 0, _ => none
  | fuel + 1, cs =>
    match skipWs cs with
    | '\"' :: rest =>
      match readStr rest with
      | none => none
      | some (key, rem) =>
        match skipWs rem with
        | ':' :: rem2 =>
          match parseVal fuel rem2 with
          | none => none
          | some (v, rem3) =>
            match skipWs rem3 with
            | ',' :: rem4 =>
              match parseMembers fuel rem4 with
              | some (fields, rem5) => some ((key, v) :: fields, rem5)
              | none => none
            | '\x7d' :: rem4 => some ([(key, v)], rem4)
            | _ => none
        | _ => none
    | _ => none

end

/-- Parse a whole JSON document: one value followed only by whitespace. -/
def parseJsonText (s : String) : Option Json :=
  match parseVal (s.data.length + 4) s.data with
  | some (j, rem) => if skipWs rem = [] then some j else none
  | none => none

/-- Boot entry kinds, from `BootEntryType` (serde rename_all snake_case). -/
inductive BootEntryType where
  | KernelDirect
  | UefiChainload
  | UefiApplication
  | InternalTool
deriving DecidableEq, Repr

/-- Architecture constraint, from `ArchitectureType` (serde rename_all
kebab-case with aliases). -/
inductive ArchitectureType where
  | X86
  | X86_64
  | Arm
  | Aarch64
  | Riscv32
  | Riscv64
  | Powerpc
  | Mips
  | Any
deriving DecidableEq, Repr

/-- Log level, from `LogLevel` (serde rename_all lowercase). -/
inductive LogLevel where
  | none
  | error
  | warn
  | info
  | debug
  | trace
deriving DecidableEq, Repr

/-- Progress bar style, from `ProgressBarVisualStyle` (serde rename_all
lowercase). -/
inductive ProgressBarVisualStyle where
  | Classic
  | Modern
  | Minimal
  | Dots
deriving DecidableEq, Repr

/-- Theme record, from `Theme` in schema_types.rs. -/
structure Theme where
  background : String
  accent : String
  font : Option String
  custom_properties : Option (List (String × String))
deriving DecidableEq, Repr

/-- A boot entry, from `BootEntry` in schema_types.rs. -/
structure BootEntry where
  id : String
  title : String
  kernel : String
  initrd : Option String
  cmdline : String
  order : Option Int
  secure : Bool
  icon : Option String
  entry_type : BootEntryType
  volume_id : Option String
  architecture : Option ArchitectureType
deriving DecidableEq, Repr

/-- Advanced settings, from `AdvancedSettings` in schema_types.rs. -/
structure AdvancedSettings where
  debug_shell : Bool
  log_level : LogLevel
  enable_network_boot : Bool
  default_boot_entry_id : Option String
  resolution : String
  show_countdown : Bool
  progress_bar_style : ProgressBarVisualStyle
  enable_mouse : Bool
  enable_touch : Bool
deriving DecidableEq, Repr

/-- The parsed configuration, from `LblConfig` in schema_types.rs. -/
structure LblConfig where
  timeout_ms : Nat
  theme : Theme
  entries : List BootEntry
  plugins : List String
  advanced : AdvancedSettings
deriving DecidableEq, Repr

def default_timeout_ms : Nat := 5000

def default_secure_false : Bool := false

def default_boot_entry_type : BootEntryType := BootEntryType.KernelDirect

def default_architecture : Option ArchitectureType := some ArchitectureType.Any

def default_false : Bool := false

def default_true : Bool := true

def default_debug_shell_false : Bool := false

def default_log_level_info : LogLevel := LogLevel.info

def default_resolution_auto : String := "auto"

def default_progress_bar_style_modern : ProgressBarVisualStyle := ProgressBarVisualStyle.Modern

/-- The `Default` impl for `AdvancedSettings`, used when `advanced` is missing. -/
def AdvancedSettings.default : AdvancedSettings :=
  { debug_shell := default_debug_shell_false
    log_level := default_log_level_info
    enable_network_boot := default_false
    default_boot_entry_id := Option.none
    resolution := default_resolution_auto
    show_countdown := default_true
    progress_bar_style := default_progress_bar_style_modern
    enable_mouse := default_true
    enable_touch := default_false }

/-! Deserializers mirroring the serde derive semantics: camelCase field names,
unknown fields ignored, `#[serde(default)]` applied when the field is missing,
`Option` fields treating `null` as `None`. -/

def jString : Json → Except String String
  | Json.str s => Except.ok s
  | _ => Except.error "invalid type: expected a string"

def jBool : Json → Except String Bool
  | Json.bool b => Except.ok b
  | _ => Except.error "invalid type: expected a boolean"

def jU32 : Json → Except String Nat
  | Json.num n =>
    if 0 ≤ n ∧ n < 2 ^ 32 then Except.ok n.toNat
    else Except.error "invalid value: integer out of range for u32"
  | _ => Except.error "invalid type: expected an integer"

def jI32 : Json → Except String Int
  | Json.num n =>
    if -(2 ^ 31) ≤ n ∧ n < 2 ^ 31 then Except.ok n
    else Except.error "invalid value: integer out of range for i32"
  | _ => Except.error "invalid type: expected an integer"

def jArr : Json → Except String (List Json)
  | Json.arr xs => Except.ok xs
  | _ => Except.error "invalid type: expected a sequence"

def jOpt {α : Type} (f : Json → Except String α) : Json → Except String (Option α)
  | Json.null => Except.ok Option.none
  | j => (f j).map some

def reqField (fields : List (String × Json)) (key : String) : Except String Json :=
  match assocGet fields key with
  | some v => Except.ok v
  | Option.none => Except.error ("missing field `" ++ key ++ "`")

def jStringMap : Json → Except String (List (String × String))
  | Json.obj fields => fields.mapM (fun kv => (jString kv.2).map (fun s => (kv.1, s)))
  | _ => Except.error "invalid type: expected a map"

def bootEntryTypeFromString (s : String) : Except String BootEntryType :=
  if s = "kernel_direct" then Except.ok BootEntryType.KernelDirect
  else if s = "uefi_chainload" then Except.ok BootEntryType.UefiChainload
  else if s = "uefi_application" then Except.ok BootEntryType.UefiApplication
  else if s = "internal_tool" then Except.ok BootEntryType.InternalTool
  else Except.error ("unknown variant `" ++ s ++ "`")

def architectureFromString (s : String) : Except String ArchitectureType :=
  if s = "x86" then Except.ok ArchitectureType.X86
  else if s = "x86-64" ∨ s = "x64" ∨ s = "amd64" then Except.ok ArchitectureType.X86_64
  else if s = "arm" then Except.ok ArchitectureType.Arm
  else if s = "aarch64" ∨ s = "arm64" then Except.ok ArchitectureType.Aarch64
  else if s = "riscv32" then Except.ok ArchitectureType.Riscv32
  else if s = "riscv64" then Except.ok ArchitectureType.Riscv64
  else if s = "powerpc" then Except.ok ArchitectureType.Powerpc
  else if s = "mips" then Except.ok ArchitectureType.Mips
  else if s = "any" then Except.ok ArchitectureType.Any
  else Except.error ("unknown variant `" ++ s ++ "`")

def logLevelFromString (s : String) : Except String LogLevel :=
  if s = "none" then Except.ok LogLevel.none
  else if s = "error" then Except.ok LogLevel.error
  else if s = "warn" then Except.ok LogLevel.warn
  else if s = "info" then Except.ok LogLevel.info
  else if s = "debug" then Except.ok LogLevel.debug
  else if s = "trace" then Except.ok LogLevel.trace
  else Except.error ("unknown variant `" ++ s ++ "`")

def progressBarStyleFromString (s : String) : Except String ProgressBarVisualStyle :=
  if s = "classic" then Except.ok ProgressBarVisualStyle.Classic
  else if s = "modern" then Except.ok ProgressBarVisualStyle.Modern
  else if s = "minimal" then Except.ok ProgressBarVisualStyle.Minimal
  else if s = "dots" then Except.ok ProgressBarVisualStyle.Dots
  else Except.error ("unknown variant `" ++ s ++ "`")

def themeFromJson : Json → Except String Theme
  | Json.obj fields => do
    let background ← reqField fields "background" >>= jString
    let accent ← reqField fields "accent" >>= jString
    let font ← match assocGet fields "font" with
      | Option.none => Except.ok Option.none
      | some j => jOpt jString j
    let cp ← match assocGet fields "customProperties" with
      | Option.none => Except.ok Option.none
      | some j => jOpt jStringMap j
    Except.ok { background := background, accent := accent, font := font,
                custom_properties := cp }
  | _ => Except.error "invalid type: expected struct Theme"

def bootEntryFromJson : Json → Except String BootEntry
  | Json.obj fields => do
    let id ← reqField fields "id" >>= jString
    let title ← reqField fields "title" >>= jString
    let kernel ← reqField fields "kernel" >>= jString
    let initrd ← match assocGet fields "initrd" with
      | Option.none => Except.ok Option.none
      | some j => jOpt jString j
    let cmdline ← match assocGet fields "cmdline" with
      | Option.none => Except.ok ""
      | some j => jString j
    let order ← match assocGet fields "order" with
      | Option.none => Except.ok Option.none
      | some j => jOpt jI32 j
    let secure ← match assocGet fields "secure" with
      | Option.none => Except.ok default_secure_false
      | some j => jBool j
    let icon ← match assocGet fields "icon" with
      | Option.none => Except.ok Option.none
      | some j => jOpt jString j
    let entry_type ← match assocGet fields "type" with
      | Option.none => Except.ok default_boot_entry_type
      | some j => jString j >>= bootEntryTypeFromString
    let volume_id ← match assocGet fields "volumeId" with
      | Option.none => Except.ok Option.none
      | some j => jOpt jString j
    let architecture ← match assocGet fields "architecture" with
      | Option.none => Except.ok default_architecture
      | some j => jOpt (fun v => jString v >>= architectureFromString) j
    Except.ok { id := id, title := title, kernel := kernel, initrd := initrd,
                cmdline := cmdline, order := order, secure := secure, icon := icon,
                entry_type := entry_type, volume_id := volume_id,
                architecture := architecture }
  | _ => Except.error "invalid type: expected struct BootEntry"

def advancedFromJson : Json → Except String AdvancedSettings
  | Json.obj fields => do
    let debug_shell ← match assocGet fields "debugShell" with
      | Option.none => Except.ok default_debug_shell_false
      | some j => jBool j
    let log_level ← match assocGet fields "logLevel" with
      | Option.none => Except.ok default_log_level_info
      | some j => jString j >>= logLevelFromString
    let enb ← match assocGet fields "enableNetworkBoot" with
      | Option.none => Except.ok default_false
      | some j => jBool j
    let dbe ← match assocGet fields "defaultBootEntryId" with
      | Option.none => Except.ok Option.none
      | some j => jOpt jString j
    let resolution ← match assocGet fields "resolution" with
      | Option.none => Except.ok default_resolution_auto
      | some j => jString j
    let show_countdown ← match assocGet fields "showCountdown" with
      | Option.none => Except.ok default_true
      | some j => jBool j
    let pbs ← match assocGet fields "progressBarStyle" with
      | Option.none => Except.ok default_progress_bar_style_modern
      | some j => jString j >>= progressBarStyleFromString
    let enable_mouse ← match assocGet fields "enableMouse" with
      | Option.none => Except.ok default_true
      | some j => jBool j
    let enable_touch ← match assocGet fields "enableTouch" with
      | Option.none => Except.ok default_false
      | some j => jBool j
    Except.ok { debug_shell := debug_shell, log_level := log_level,
                enable_network_boot := enb, default_boot_entry_id := dbe,
                resolution := resolution, show_countdown := show_countdown,
                progress_bar_style := pbs, enable_mouse := enable_mouse,
                enable_touch := enable_touch }
  | _ => Except.error "invalid type: expected struct AdvancedSettings"

def lblConfigFromJson : Json → Except String LblConfig
  | Json.obj fields => do
    let timeout_ms ← match assocGet fields "timeoutMs" with
      | Option.none => Except.ok default_timeout_ms
      | some j => jU32 j
    let theme ← reqField fields "theme" >>= themeFromJson
    let entriesJ ← reqField fields "entries" >>= jArr
    let entries ← entriesJ.mapM bootEntryFromJson
    let plugins ← match assocGet fields "plugins" with
      | Option.none => Except.ok []
      | some j => do
        let xs ← jArr j
        xs.mapM jString
    let advanced ← match assocGet fields "advanced" with
      | Option.none => Except.ok AdvancedSettings.default
      | some j => advancedFromJson j
    Except.ok { timeout_ms := timeout_ms, theme := theme, entries := entries,
                plugins := plugins, advanced := advanced }
  | _ => Except.error "invalid type: expected struct LblConfig"

/-- Configuration error type, from `ConfigError` in core/src/config.rs. -/
inductive ConfigError where
  | FileNotFound
  | NoVolumesMounted
  | ReadError (s : String)
  | InvalidFormat (s : String)
  | ValidationError (s : String)
  | LogicError (s : String)
  | NotImplementedNoAlloc
  | Filesystem (e : FilesystemError)
deriving DecidableEq, Repr

/-- The duplicate-id error message formatted by `validate_parsed_config`. -/
def dupMsg (id : String) : String :=
  "Duplicate boot entry ID found: \x27" ++ id ++ "\x27. Entry IDs must be unique."

/-- The dangling-default-id error message formatted by `validate_parsed_config`. -/
def defaultIdMsg (id : String) : String :=
  "default_boot_entry_id \x27" ++ id ++ "\x27 does not match any entry ID."

/-- The `BTreeSet` scan of `validate_parsed_config`: walk the entries carrying
the set of ids seen so far and report the first id whose insertion fails. -/
def findDupId (seen : List String) : List BootEntry → Option String
  | [] => Option.none
  | e :: rest => if e.id ∈ seen then some e.id else findDupId (e.id :: seen) rest

/-- The second and third checks of `validate_parsed_config` (id uniqueness via
the `BTreeSet` scan, then non-emptiness), split out of the early-returning Rust
body. -/
def validateTail (config : LblConfig) : Except ConfigError Unit :=
  match findDupId [] config.entries with
  | some dupId => Except.error (ConfigError.LogicError (dupMsg dupId))
  | Option.none =>
    if config.entries.isEmpty then
      Except.error (ConfigError.LogicError "Configuration must contain at least one boot entry.")
    else Except.ok ()

/-- `validate_parsed_config` (parser.rs lines 73-113): check that a configured
default entry id resolves, then that entry ids are unique, then that the entry
list is non-empty. -/
def validate_parsed_config (config : LblConfig) : Except ConfigError Unit :=
  match config.advanced.default_boot_entry_id with
  | some default_id =>
    if config.entries.any (fun entry => entry.id == default_id) then validateTail config
    else Except.error (ConfigError.LogicError (defaultIdMsg default_id))
  | Option.none => validateTail config

/-- `parse_config_json` (parser.rs lines 15-69): deserialize (serde errors are
wrapped as `InvalidFormat("JSON parse error: ...")` by the `From` impl in
config.rs), then run the logical validation. -/
def parse_config_json (json_string : String) : Except ConfigError LblConfig :=
  match parseJsonText json_string with
  | Option.none => Except.error (ConfigError.InvalidFormat "JSON parse error: invalid JSON")
  | some j =>
    match lblConfigFromJson j with
    | Except.error e => Except.error (ConfigError.InvalidFormat ("JSON parse error: " ++ e))
    | Except.ok config =>
      match validate_parsed_config config with
      | Except.error e => Except.error e
      | Except.ok _ => Except.ok config

/-! Substring machinery used to state "the error message mentions the id". -/

/-- The needle is a leading segment of the haystack. -/
def containsAt : List Char → List Char → Bool
  | [], _ => true
  | _ :: _, [] => false
  | a :: as, b :: bs => a == b && containsAt as bs

/-- The needle occurs somewhere inside the haystack. -/
def strContainsB (needle : String) : List Char → Bool
  | [] => needle.data.isEmpty
  | c :: rest => containsAt needle.data (c :: rest) || strContainsB needle rest

lemma containsAt_append_self : ∀ (s t : List Char), containsAt s (s ++ t) = true := by
  intro s
  induction s with
  | nil => intro t; rfl
  | cons a as ih =>
    intro t
    simp only [List.cons_append, containsAt, Bool.and_eq_true, beq_self_eq_true, true_and]
    exact ih t

lemma strContainsB_empty_needle (s : String) (hs : s.data = []) :
    ∀ hay : List Char, strContainsB s hay = true := by
  intro hay
  induction hay with
  | nil => simp [strContainsB, hs]
  | cons c rest _ =>
    simp only [strContainsB, hs, containsAt, Bool.true_or]

lemma strContainsB_append_left (s : String) :
    ∀ (pre rest : List Char), strContainsB s rest = true →
      strContainsB s (pre ++ rest) = true := by
  intro pre
  induction pre with
  | nil => intro rest h; exact h
  | cons c pre2 ih =>
    intro rest h
    simp only [List.cons_append, strContainsB, Bool.or_eq_true]
    exact Or.inr (ih rest h)

lemma strContainsB_self_append (s : String) (post : List Char) :
    strContainsB s (s.data ++ post) = true := by
  cases hs : s.data with
  | nil => exact strContainsB_empty_needle s hs _
  | cons a as =>
    simp only [List.cons_append, strContainsB, Bool.or_eq_true, hs]
    left
    exact containsAt_append_self (a :: as) post

/-- The duplicate-id message mentions the id. -/
lemma dupMsg_mentions (id : String) : strContainsB id (dupMsg id).data = true := by
  have h : (dupMsg id).data =
      "Duplicate boot entry ID found: \x27".data ++
        (id.data ++ "\x27. Entry IDs must be unique.".data) := by
    simp [dupMsg, List.append_assoc]
  rw [h]
  exact strContainsB_append_left id _ _ (strContainsB_self_append id _)

lemma findDupId_none_nodup : ∀ (l : List BootEntry) (seen : List String),
    findDupId seen l = Option.none →
    (l.map BootEntry.id).Nodup ∧ ∀ s ∈ seen, s ∉ l.map BootEntry.id := by
  intro l
  induction l with
  | nil => intro seen _; simp
  | cons e rest ih =>
    intro seen h
    unfold findDupId at h
    by_cases hmem : e.id ∈ seen
    · rw [if_pos hmem] at h
      exact Option.noConfusion h
    · rw [if_neg hmem] at h
      obtain ⟨hnd, hsee⟩ := ih (e.id :: seen) h
      refine ⟨?_, ?_⟩
      · rw [List.map_cons, List.nodup_cons]
        exact ⟨hsee e.id (List.mem_cons_self ..), hnd⟩
      · intro s hs
        rw [List.map_cons, List.mem_cons]
        rintro (h1 | h1)
        · exact hmem (h1 ▸ hs)
        · exact hsee s (List.mem_cons_of_mem _ hs) h1

lemma findDupId_some_count : ∀ (l : List BootEntry) (seen : List String) (d : String),
    findDupId seen l = some d →
    (d ∈ seen ∧ d ∈ l.map BootEntry.id) ∨ 2 ≤ (l.map BootEntry.id).count d := by
  intro l
  induction l with
  | nil => intro seen d h; simp [findDupId] at h
  | cons e rest ih =>
    intro seen d h
    unfold findDupId at h
    by_cases hmem : e.id ∈ seen
    · rw [if_pos hmem] at h
      have hd := Option.some.inj h
      subst hd
      exact Or.inl ⟨hmem, by simp⟩
    · rw [if_neg hmem] at h
      rcases ih (e.id :: seen) d h with ⟨hseen, hmap⟩ | hcount
      · rcases List.mem_cons.mp hseen with h1 | h1
        · subst h1
          right
          rw [List.map_cons, List.count_cons]
          simp only [beq_self_eq_true, if_pos]
          have : 1 ≤ (rest.map BootEntry.id).count e.id := List.one_le_count_iff.mpr hmap
          omega
        · exact Or.inl ⟨h1, by simp [hmap]⟩
      · right
        rw [List.map_cons, List.count_cons]
        omega

/-- Claim C6, amended: for every configuration whose entry list contains two
entries sharing an id, `validate_parsed_config` fails with a `Logic` error and
no config is returned; when the default-entry check passes (no
`default_boot_entry_id`, or one naming an existing entry), the error is the
duplicate-id error and its message mentions an id that occurs at least twice. -/
theorem C6_duplicate_id_logic_error (config : LblConfig)
    (hdup : ¬ (config.entries.map BootEntry.id).Nodup) :
    (∃ msg, validate_parsed_config config = Except.error (ConfigError.LogicError msg)) ∧
    ((∀ did, config.advanced.default_boot_entry_id = some did →
        ∃ e ∈ config.entries, e.id = did) →
      ∃ d, 2 ≤ (config.entries.map BootEntry.id).count d ∧
        validate_parsed_config config = Except.error (ConfigError.LogicError (dupMsg d)) ∧
        strContainsB d (dupMsg d).data = true) := by
  have htail : ∃ d, validateTail config = Except.error (ConfigError.LogicError (dupMsg d)) ∧
      2 ≤ (config.entries.map BootEntry.id).count d := by
    cases hf : findDupId [] config.entries with
    | none =>
      exact absurd (findDupId_none_nodup config.entries [] hf).1 hdup
    | some d =>
      refine ⟨d, ?_, ?_⟩
      · unfold validateTail
        rw [hf]
      · rcases findDupId_some_count config.entries [] d hf with ⟨hseen, _⟩ | hcount
        · simp at hseen
        · exact hcount
  obtain ⟨d, htaileq, hcount⟩ := htail
  cases hdbe : config.advanced.default_boot_entry_id with
  | none =>
    have hval : validate_parsed_config config = validateTail config := by
      unfold validate_parsed_config
      rw [hdbe]
    constructor
    · exact ⟨dupMsg d, by rw [hval]; exact htaileq⟩
    · intro _
      exact ⟨d, hcount, by rw [hval]; exact htaileq, dupMsg_mentions d⟩
  | some did =>
    by_cases hany : config.entries.any (fun entry => entry.id == did) = true
    · have hval : validate_parsed_config config = validateTail config := by
        unfold validate_parsed_config
        rw [hdbe]
        exact if_pos hany
      constructor
      · exact ⟨dupMsg d, by rw [hval]; exact htaileq⟩
      · intro _
        exact ⟨d, hcount, by rw [hval]; exact htaileq, dupMsg_mentions d⟩
    · have hval : validate_parsed_config config =
          Except.error (ConfigError.LogicError (defaultIdMsg did)) := by
        unfold validate_parsed_config
        rw [hdbe]
        exact if_neg hany
      constructor
      · exact ⟨defaultIdMsg did, hval⟩
      · intro hdef
        obtain ⟨e, hmem, heid⟩ := hdef did rfl
        exact absurd (List.any_eq_true.mpr ⟨e, hmem, by simp [heid]⟩) hany

/-- A boot entry used in the C6 examples; its id "dup" is duplicated. -/
def entryDup : BootEntry :=
  { id := "dup", title := "T", kernel := "/k", initrd := Option.none, cmdline := "",
    order := Option.none, secure := false, icon := Option.none,
    entry_type := BootEntryType.KernelDirect, volume_id := Option.none,
    architecture := some ArchitectureType.Any }

/-- Configuration with duplicated entry ids and no default entry id. -/
def cfgDupNoDefault : LblConfig :=
  { timeout_ms := 5000, theme := ⟨"#000000", "#FFFFFF", Option.none, Option.none⟩,
    entries := [entryDup, entryDup], plugins := [],
    advanced := AdvancedSettings.default }

/-- Configuration with duplicated entry ids and a dangling default entry id. -/
def cfgDupDanglingDefault : LblConfig :=
  { timeout_ms := 5000, theme := ⟨"#000000", "#FFFFFF", Option.none, Option.none⟩,
    entries := [entryDup, entryDup], plugins := [],
    advanced := { AdvancedSettings.default with default_boot_entry_id := some "x" } }

/-- Witness for C6: a concrete duplicated configuration is rejected with a
`Logic` error. -/
theorem C6_duplicate_id_logic_error_witness :
    (¬ (cfgDupNoDefault.entries.map BootEntry.id).Nodup) ∧
    (∃ msg, validate_parsed_config cfgDupNoDefault =
      Except.error (ConfigError.LogicError msg)) :=
  ⟨by decide, (C6_duplicate_id_logic_error cfgDupNoDefault (by decide)).1⟩

/-- Counterexample to C6 as stated: the entries share the id "dup", yet with a
dangling `default_boot_entry_id` the validation fails first with the
default-entry `Logic` error, whose message does not mention "dup". -/
theorem C6_dangling_default_masks_duplicate :
    (¬ (cfgDupDanglingDefault.entries.map BootEntry.id).Nodup) ∧
    validate_parsed_config cfgDupDanglingDefault =
      Except.error (ConfigError.LogicError (defaultIdMsg "x")) ∧
    strContainsB "dup" (defaultIdMsg "x").data = false := by
  refine ⟨by decide, rfl, by decide⟩

/-! ## C5: configuration defaults. -/

/-- The document of claim C5. -/
def c5doc : String :=
  "\x7b\"entries\":[\x7b\"id\":\"a\",\"title\":\"A\",\"kernel\":\"/k\"\x7d]\x7d"

/-- The C5 document extended with the (required) theme object. -/
def c5docWithTheme : String :=
  "\x7b\"theme\":\x7b\"background\":\"#112233\",\"accent\":\"#445566\"\x7d,\"entries\":[\x7b\"id\":\"a\",\"title\":\"A\",\"kernel\":\"/k\"\x7d]\x7d"

/-- Counterexample to C5 as stated: the minimal document does not parse,
because `LblConfig.theme` carries no serde default and is therefore required. -/
theorem C5_minimal_doc_missing_theme :
    parse_config_json c5doc =
      Except.error (ConfigError.InvalidFormat "JSON parse error: missing field `theme`") := by
  rfl

/-- The configuration value the extended C5 document parses to. -/
def c5cfg : LblConfig :=
  { timeout_ms := 5000
    theme := { background := "#112233", accent := "#445566", font := Option.none,
               custom_properties := Option.none }
    entries := [{ id := "a", title := "A", kernel := "/k", initrd := Option.none,
                  cmdline := "", order := Option.none, secure := false,
                  icon := Option.none, entry_type := BootEntryType.KernelDirect,
                  volume_id := Option.none,
                  architecture := some ArchitectureType.Any }]
    plugins := []
    advanced := { debug_shell := false, log_level := LogLevel.info,
                  enable_network_boot := false, default_boot_entry_id := Option.none,
                  resolution := "auto", show_countdown := true,
                  progress_bar_style := ProgressBarVisualStyle.Modern,
                  enable_mouse := true, enable_touch := false } }

/-- Claim C5, amended: parsing the claimed document fails with `InvalidFormat`
(missing required field `theme`); parsing the same document with a theme object
added succeeds and yields `timeout_ms = 5000`, `advanced.log_level = info`,
`advanced.enable_mouse = true` and `advanced.show_countdown = true`. -/
theorem C5_defaults_with_theme :
    parse_config_json c5doc =
      Except.error (ConfigError.InvalidFormat "JSON parse error: missing field `theme`") ∧
    ∃ cfg, parse_config_json c5docWithTheme = Except.ok cfg ∧
      cfg.timeout_ms = 5000 ∧
      cfg.advanced.log_level = LogLevel.info ∧
      cfg.advanced.enable_mouse = true ∧
      cfg.advanced.show_countdown = true :=
  ⟨rfl, ⟨c5cfg, rfl, rfl, rfl, rfl, rfl⟩⟩

/-! ## C4: configuration search (core/src/config.rs lines 30-91).
`load_configuration` walks the volumes returned by `list_mounted_volumes` (the
mount table is a `BTreeMap` keyed by volume id, so that list is in the mount
table order) and on each volume tries the three well-known paths in order,
returning the parse of the first file that reads successfully; a path that is
absent yields `NotFound`, which the loop skips. -/

/-- A mounted volume as the config loader sees it: the public volume id with
the files its filesystem instance resolves (path to UTF-8 decoded content; a
missing path is the `NotFound` the loader skips). -/
structure CfgVolume where
  id : String
  fs_type : String
  files : List (String × String)
deriving DecidableEq, Repr

/-- `fs_manager.read_file(volume.id, path)` against this volume. -/
def cfgReadFile (v : CfgVolume) (path : String) : Option String :=
  assocGet v.files path

/-- The search-path array of `load_configuration`, in order. -/
def search_paths : List String :=
  ["/LBL/config.json", "/boot/lbl/config.json", "/config.json"]

/-- The inner path loop on one volume: first path that reads successfully. -/
def searchVolume (v : CfgVolume) : List String → Option String
  | [] => Option.none
  | p :: rest =>
    match cfgReadFile v p with
    | some content => some content
    | Option.none => searchVolume v rest

/-- The outer volume loop: on the first volume with a hit, return the parse of
that file; `FileNotFound` when the loops finish empty-handed. -/
def searchVolumes : List CfgVolume → Except ConfigError LblConfig
  | [] => Except.error ConfigError.FileNotFound
  | v :: rest =>
    match searchVolume v search_paths with
    | some content => parse_config_json content
    | Option.none => searchVolumes rest

/-- `load_configuration` (config.rs lines 30-91). -/
def load_configuration (mounted_volumes : List CfgVolume) : Except ConfigError LblConfig :=
  if mounted_volumes.isEmpty then Except.error ConfigError.NoVolumesMounted
  else searchVolumes mounted_volumes

lemma searchVolume_found (v : CfgVolume) :
    ∀ (qpre : List String) (p : String) (qpost : List String) (content : String),
    (∀ q ∈ qpre, cfgReadFile v q = Option.none) →
    cfgReadFile v p = some content →
    searchVolume v (qpre ++ p :: qpost) = some content := by
  intro qpre
  induction qpre with
  | nil =>
    intro p qpost content _ hfile
    simp only [List.nil_append, searchVolume]
    rw [hfile]
  | cons q qrest ih =>
    intro p qpost content hpre hfile
    simp only [List.cons_append, searchVolume]
    rw [hpre q (List.mem_cons_self ..)]
    exact ih p qpost content (fun x hx => hpre x (List.mem_cons_of_mem _ hx)) hfile

lemma searchVolume_none (v : CfgVolume) :
    ∀ (paths : List String), (∀ q ∈ paths, cfgReadFile v q = Option.none) →
    searchVolume v paths = Option.none := by
  intro paths
  induction paths with
  | nil => intro _; rfl
  | cons q rest ih =>
    intro h
    simp only [searchVolume]
    rw [h q (List.mem_cons_self ..)]
    exact ih (fun x hx => h x (List.mem_cons_of_mem _ hx))

lemma searchVolumes_found :
    ∀ (pre : List CfgVolume) (v : CfgVolume) (post : List CfgVolume) (content : String),
    (∀ u ∈ pre, ∀ q ∈ search_paths, cfgReadFile u q = Option.none) →
    searchVolume v search_paths = some content →
    searchVolumes (pre ++ v :: post) = parse_config_json content := by
  intro pre
  induction pre with
  | nil =>
    intro v post content _ hhit
    simp only [List.nil_append, searchVolumes]
    rw [hhit]
  | cons u urest ih =>
    intro v post content hpre hhit
    simp only [List.cons_append, searchVolumes]
    rw [searchVolume_none u search_paths (hpre u (List.mem_cons_self ..))]
    exact ih v post content (fun x hx => hpre x (List.mem_cons_of_mem _ hx)) hhit

/-- The scenario volumes of claim C4. -/
def volNoConfig : CfgVolume := ⟨"vol-1-sda-fat32", "FAT32", []⟩

/-- The C4 document placed on V1 under /LBL/config.json (distinct content). -/
def c4docV1 : String :=
  "\x7b\"timeoutMs\":1234,\"theme\":\x7b\"background\":\"#112233\",\"accent\":\"#445566\"\x7d,\"entries\":[\x7b\"id\":\"v1\",\"title\":\"V1\",\"kernel\":\"/k1\"\x7d]\x7d"

def volV1WithLblConfig : CfgVolume :=
  ⟨"vol-1-sda-fat32", "FAT32", [("/LBL/config.json", c4docV1)]⟩

def volV2WithRootConfig : CfgVolume :=
  ⟨"vol-2-sdb-fat32", "FAT32", [("/config.json", c5docWithTheme)]⟩

/-- Claim C4: the config loader visits the mounted volumes in mount-table
order and tries `/LBL/config.json`, `/boot/lbl/config.json`, `/config.json` on
each, returning the parse of the first file found: whenever the volume list
splits as `pre ++ v :: post` with no config file on any volume of `pre`, and
the path list splits as `qpre ++ p :: qpost` with nothing on `v` before `p` and
a file at `p`, the result is the parse of that file.  In particular (the two
scenarios of the claim): with the config only at `/config.json` on V2 the
loader returns the parse of V2's file, and with a config also at
`/LBL/config.json` on V1 it returns the parse of V1's. -/
theorem C4_search_order
    (pre post : List CfgVolume) (v : CfgVolume)
    (qpre qpost : List String) (p content : String)
    (hsplit : search_paths = qpre ++ p :: qpost)
    (hpre : ∀ u ∈ pre, ∀ q ∈ search_paths, cfgReadFile u q = Option.none)
    (hqpre : ∀ q ∈ qpre, cfgReadFile v q = Option.none)
    (hfile : cfgReadFile v p = some content) :
    load_configuration (pre ++ v :: post) = parse_config_json content ∧
    load_configuration [volNoConfig, volV2WithRootConfig] =
      parse_config_json c5docWithTheme ∧
    load_configuration [volV1WithLblConfig, volV2WithRootConfig] =
      parse_config_json c4docV1 := by
  refine ⟨?_, by rfl, by rfl⟩
  unfold load_configuration
  rw [if_neg (by simp)]
  refine searchVolumes_found pre v post content hpre ?_
  rw [hsplit]
  exact searchVolume_found v qpre p qpost content hqpre hfile

/-- Witness for C4: the first scenario instantiates the general statement with
`pre = [V1-empty]`, `v = V2`, `p = "/config.json"`. -/
theorem C4_search_order_witness :
    (search_paths = ["/LBL/config.json", "/boot/lbl/config.json"] ++
      "/config.json" :: []) ∧
    load_configuration [volNoConfig, volV2WithRootConfig] =
      parse_config_json c5docWithTheme :=
  ⟨rfl,
   (C4_search_order [volNoConfig] [] volV2WithRootConfig
      ["/LBL/config.json", "/boot/lbl/config.json"] [] "/config.json" c5docWithTheme
      rfl (by decide) (by decide) rfl).1⟩

/-! ## C2: signature verification and the boot executor
(core/src/security/signature.rs lines 45-99, core/src/security.rs lines 75-192,
core/src/loader.rs lines 53-239). -/

/-- Security error type, from `SecurityError` in core/src/security.rs. -/
inductive SecurityError where
  | TpmError (s : String)
  | SignatureVerificationFailed (s : String)
  | HashMismatch (s : String)
  | KeyNotFound (s : String)
  | MeasurementFailed (s : String)
  | Filesystem (e : FilesystemError)
  | ConfigError (s : String)
  | NetworkError (s : String)
  | NotImplemented (s : String)
  | Other (s : String)
deriving DecidableEq, Repr

/-- `verify_signature` (signature.rs lines 45-99): the stub rejects only the
empty-data-and-empty-signature case (with `Other`) and returns `Ok(true)` for
every other input; the short-signature branch merely logs (its `Ok(false)`
return is commented out).  The key store plays no role. -/
def verify_signature (data signature_data : List Nat) : Except SecurityError Bool :=
  if data.isEmpty ∧ signature_data.isEmpty then
    Except.error (SecurityError.Other "Empty data/signature in stub")
  else Except.ok true

/-- A mounted volume as the security manager and executor see it: the volume id
and the raw file bytes its instance resolves. -/
structure FsVolume where
  id : String
  files : List (String × List Nat)
deriving DecidableEq, Repr

/-- The search loop of `verify_boot_entry` (security.rs lines 106-122): walk
the mounted volumes, remembering the first readable kernel (with its volume id)
and the first readable signature, stopping early when both are found. -/
def findKernelAndSig (kernel_path sig_path : String) :
    List FsVolume → Option (List Nat × String) → Option (List Nat) →
    Option (List Nat × String) × Option (List Nat)
  | [], fk, fsig => (fk, fsig)
  | v :: rest, fk, fsig =>
    let fk2 := match fk with
      | some x => some x
      | Option.none => (assocGet v.files kernel_path).map (fun d => (d, v.id))
    let fsig2 := match fsig with
      | some x => some x
      | Option.none => assocGet v.files sig_path
    if fk2.isSome ∧ fsig2.isSome then (fk2, fsig2)
    else findKernelAndSig kernel_path sig_path rest fk2 fsig2

/-- `SecurityManager::verify_boot_entry` (security.rs lines 75-192): no-op for
non-secure entries; otherwise locate kernel and `<kernel>.sig` across the
mounted volumes, then run `verify_signature`.  The TPM measurement block only
logs failures and never changes the result, so the `tpm_available` flag is
irrelevant to the returned value. -/
def verify_boot_entry (_tpm_available : Bool) (vols : List FsVolume)
    (entry : BootEntry) : Except SecurityError Unit :=
  if ¬ entry.secure then Except.ok ()
  else
    match findKernelAndSig entry.kernel (entry.kernel ++ ".sig") vols
        Option.none Option.none with
    | (Option.none, _) =>
      Except.error (SecurityError.ConfigError
        ("Kernel file not found for sig verification: " ++ entry.kernel))
    | (some _, Option.none) =>
      Except.error (SecurityError.ConfigError
        ("Signature file not found: " ++ entry.kernel ++ ".sig"))
    | (some kd, some signature_data) =>
      match verify_signature kd.1 signature_data with
      | Except.ok true => Except.ok ()
      | Except.ok false =>
        Except.error (SecurityError.SignatureVerificationFailed entry.kernel)
      | Except.error e => Except.error e

/-- Whether `execute_boot` reaches the `kernel_formats::load_kernel` call. -/
inductive ExecOutcome where
  | panicked
  | invokedKernelLoader
deriving DecidableEq, Repr

/-- The volume-resolution and kernel-read portion of the `KernelDirect` path of
`execute_boot` (loader.rs lines 79-181): explicit `volume_id` wins, else the
first mounted volume; a missing volume or unreadable kernel file panics before
the kernel loader is called. -/
def loadPhase (vols : List FsVolume) (entry : BootEntry) : ExecOutcome :=
  match
    (match entry.volume_id with
     | some vid => some vid
     | Option.none => vols.head?.map FsVolume.id) with
  | Option.none => ExecOutcome.panicked
  | some vid =>
    match vols.find? (fun v => v.id == vid) with
    | Option.none => ExecOutcome.panicked
    | some v =>
      match assocGet v.files entry.kernel with
      | Option.none => ExecOutcome.panicked
      | some _ => ExecOutcome.invokedKernelLoader

/-- `execute_boot` (loader.rs lines 53-140) up to the kernel-loader call: a
secure entry is verified first and a verification failure panics (the
placeholder error handling), so the kernel loader is not invoked; the non-
`KernelDirect` entry types never reach `kernel_formats::load_kernel` on this
(non-UEFI) path. -/
def execute_boot_reaches_loader (tpm_available : Bool) (vols : List FsVolume)
    (entry : BootEntry) : ExecOutcome :=
  if entry.secure then
    match verify_boot_entry tpm_available vols entry with
    | Except.error _ => ExecOutcome.panicked
    | Except.ok _ =>
      match entry.entry_type with
      | BootEntryType.KernelDirect => loadPhase vols entry
      | _ => ExecOutcome.panicked
  else
    match entry.entry_type with
    | BootEntryType.KernelDirect => loadPhase vols entry
    | _ => ExecOutcome.panicked

/-- The secure boot entry of the C2 scenario. -/
def secureEntry : BootEntry :=
  { id := "linux", title := "Linux", kernel := "/vmlinuz", initrd := Option.none,
    cmdline := "", order := Option.none, secure := true, icon := Option.none,
    entry_type := BootEntryType.KernelDirect, volume_id := Option.none,
    architecture := some ArchitectureType.Any }

/-- A corrupted signature: 70 zero bytes (any non-empty byte string would do). -/
def corruptSig : List Nat := List.replicate 70 0

/-- Kernel image bytes of the scenario. -/
def kernelBytes : List Nat := [0x7f, 0x45, 0x4c, 0x46]

/-- The mounted volume carrying the kernel and the corrupted sidecar. -/
def volWithCorruptSig : FsVolume :=
  ⟨"vol-1-sda-fat32", [("/vmlinuz", kernelBytes), ("/vmlinuz.sig", corruptSig)]⟩

/-- Claim C2 (code divergence, evaluated at the failing input): with
`entry.secure = true` and a corrupted signature present, the stubbed
`verify_signature` accepts it (`Ok(true)`), `verify_boot_entry` therefore
succeeds, and `execute_boot` goes on to invoke the kernel loader — the claimed
`SignatureVerificationFailed` outcome never occurs. -/
theorem C2_stub_accepts_corrupt_signature :
    verify_signature kernelBytes corruptSig = Except.ok true ∧
    verify_boot_entry false [volWithCorruptSig] secureEntry = Except.ok () ∧
    execute_boot_reaches_loader false [volWithCorruptSig] secureEntry =
      ExecOutcome.invokedKernelLoader := by
  refine ⟨rfl, rfl, rfl⟩
